import Mathlib

/-!
# Shallow embedding of the PCL half-edge mesh core

This file embeds `pcl::geometry::MeshBase` from
`src/geometry/include/pcl/geometry/mesh_base.h` and proves the specified
properties of its operations.

Conventions of the embedding:

* Element indices are `Nat`; the invalid sentinel of the strongly typed
  index classes (`mesh_indices.h`, not part of the source tree) is
  `none : Option Nat` wherever a stored index may be invalid, and a plain
  `Nat` wherever the source asserts validity.
* The compile-time manifold trait `MeshTraitsT::IsManifold` is a `Bool`
  field of the mesh value; the source dispatches on it with tag types and
  the embedding dispatches on the field.
* Operations that can trip a debug assertion or read out of bounds in the
  C++ source (undefined behaviour in release builds) are `Option`-valued;
  `none` is the error outcome.  A returned *invalid index* (for example the
  failure result of `addFace`) is `none : Option Nat` *inside* a `some`
  result.
* The per-element payload clouds are plain lists; the embedding models the
  instantiation in which every element kind has payload data
  (`HasVertexData` and friends all true), which is the case the payload
  clauses of the specification speak about.
* Circulator steps: `mesh_circulators.h` is not part of the source tree,
  so the steps are modelled from the specification (see the individual
  doc comments).
-/

namespace PCLMesh

/-- Modelled from the spec: `mesh_elements.h` is not in the source tree.
A vertex stores its outgoing half-edge; the sentinel (`none`) means
isolated or deleted. -/
structure Vertex where
  outgoing : Option Nat
deriving DecidableEq

/-- Modelled from the spec: `mesh_elements.h` is not in the source tree.
A half-edge stores its terminating vertex (sentinel means deleted), the
next and previous half-edges of its cycle and its incident face (sentinel
means boundary).  The constructor `HalfEdge (idx_v_b)` used by `addEdge`
sets only the terminating vertex. -/
structure HalfEdge where
  term : Option Nat
  nxt  : Option Nat
  prv  : Option Nat
  face : Option Nat
deriving DecidableEq

/-- Modelled from the spec: `mesh_elements.h` is not in the source tree.
A face stores one inner half-edge of its cycle; sentinel means deleted. -/
structure Face where
  inner : Option Nat
deriving DecidableEq

/-- The mesh state: the manifold policy flag, the three element sequences
of `MeshBase` and the four payload clouds. -/
structure Mesh (VD HED ED FD : Type) where
  manifold  : Bool
  vertices  : List Vertex
  halfEdges : List HalfEdge
  faces     : List Face
  vData  : List VD
  heData : List HED
  eData  : List ED
  fData  : List FD
deriving DecidableEq

variable {VD HED ED FD : Type}

/-- `sizeVertices`. -/
def sizeVertices (m : Mesh VD HED ED FD) : Nat := m.vertices.length

/-- `sizeHalfEdges`. -/
def sizeHalfEdges (m : Mesh VD HED ED FD) : Nat := m.halfEdges.length

/-- `sizeEdges` = `half_edges_.size () / 2`. -/
def sizeEdges (m : Mesh VD HED ED FD) : Nat := m.halfEdges.length / 2

/-- `sizeFaces`. -/
def sizeFaces (m : Mesh VD HED ED FD) : Nat := m.faces.length

/-- `isValid (VertexIndex)`: bounds check. -/
def isValidV (m : Mesh VD HED ED FD) (v : Nat) : Bool := v < m.vertices.length

/-- `isValid (HalfEdgeIndex)`: bounds check. -/
def isValidH (m : Mesh VD HED ED FD) (h : Nat) : Bool := h < m.halfEdges.length

/-- `isValid (EdgeIndex)`: bounds check against `half_edges_.size () / 2`. -/
def isValidE (m : Mesh VD HED ED FD) (e : Nat) : Bool := e < m.halfEdges.length / 2

/-- `isValid (FaceIndex)`: bounds check. -/
def isValidF (m : Mesh VD HED ED FD) (f : Nat) : Bool := f < m.faces.length

/-- `getVertex` (read); `none` on an out-of-range index. -/
def vertexAt (m : Mesh VD HED ED FD) (v : Nat) : Option Vertex := m.vertices.get? v

/-- `getHalfEdge` (read); `none` on an out-of-range index. -/
def halfEdgeAt (m : Mesh VD HED ED FD) (h : Nat) : Option HalfEdge := m.halfEdges.get? h

/-- `getFace` (read); `none` on an out-of-range index. -/
def faceAt (m : Mesh VD HED ED FD) (f : Nat) : Option Face := m.faces.get? f

/-- `getOppositeHalfEdgeIndex`: the source computes
`idx & 1 ? idx - 1 : idx + 1`. -/
def getOpposite (h : Nat) : Nat := if h % 2 = 1 then h - 1 else h + 1

/-- Modelled from the spec: `mesh_indices.h` is not in the source tree;
`edge_to_half_edge (e, which) = 2 e + which`, and the boolean form used by
the source selects the first (`2 e`) or second (`2 e + 1`) half-edge. -/
def toHalfEdgeIndex (e : Nat) (first : Bool) : Nat :=
  2 * e + (if first then 0 else 1)

/-- Effectful map over a list in the `Option` error monad (the loops of
the source that perform one fallible read per element). -/
def mapO {α β : Type} (f : α → Option β) : List α → Option (List β)
  | [] => some []
  | a :: l =>
    match f a with
    | none => none
    | some b =>
      match mapO f l with
      | none => none
      | some l2 => some (b :: l2)

/-- `isDeleted (VertexIndex)`: the outgoing half-edge is invalid. -/
def isDeletedV (m : Mesh VD HED ED FD) (v : Nat) : Option Bool :=
  (vertexAt m v).map (fun x => x.outgoing.isNone)

/-- `isIsolated`: same representation as a deleted vertex. -/
def isIsolated (m : Mesh VD HED ED FD) (v : Nat) : Option Bool :=
  (vertexAt m v).map (fun x => x.outgoing.isNone)

/-- `isDeleted (HalfEdgeIndex)`: the terminating vertex is invalid. -/
def isDeletedH (m : Mesh VD HED ED FD) (h : Nat) : Option Bool :=
  (halfEdgeAt m h).map (fun x => x.term.isNone)

/-- `isDeleted (EdgeIndex)`: either half-edge of the pair is deleted. -/
def isDeletedE (m : Mesh VD HED ED FD) (e : Nat) : Option Bool :=
  match isDeletedH m (toHalfEdgeIndex e true), isDeletedH m (toHalfEdgeIndex e false) with
  | some a, some b => some (a || b)
  | _, _ => none

/-- `isDeleted (FaceIndex)`: the inner half-edge is invalid. -/
def isDeletedF (m : Mesh VD HED ED FD) (f : Nat) : Option Bool :=
  (faceAt m f).map (fun x => x.inner.isNone)

/-- `isBoundary (HalfEdgeIndex)`: no incident face. -/
def isBoundaryH (m : Mesh VD HED ED FD) (h : Nat) : Option Bool :=
  (halfEdgeAt m h).map (fun x => x.face.isNone)

/-- `isBoundary (VertexIndex)`: delegates to the outgoing half-edge; an
invalid outgoing half-edge trips the assertion inside the delegate. -/
def isBoundaryV (m : Mesh VD HED ED FD) (v : Nat) : Option Bool :=
  match vertexAt m v with
  | none => none
  | some x =>
    match x.outgoing with
    | none => none
    | some h => isBoundaryH m h

/-- `setOutgoingHalfEdgeIndex`. -/
def setOutgoing (m : Mesh VD HED ED FD) (v : Nat) (o : Option Nat) :
    Option (Mesh VD HED ED FD) :=
  match m.vertices.get? v with
  | none => none
  | some x => some { m with vertices := m.vertices.set v { x with outgoing := o } }

/-- `setNextHalfEdgeIndex`. -/
def setNext (m : Mesh VD HED ED FD) (h : Nat) (o : Option Nat) :
    Option (Mesh VD HED ED FD) :=
  match m.halfEdges.get? h with
  | none => none
  | some x => some { m with halfEdges := m.halfEdges.set h { x with nxt := o } }

/-- `setPrevHalfEdgeIndex`. -/
def setPrev (m : Mesh VD HED ED FD) (h : Nat) (o : Option Nat) :
    Option (Mesh VD HED ED FD) :=
  match m.halfEdges.get? h with
  | none => none
  | some x => some { m with halfEdges := m.halfEdges.set h { x with prv := o } }

/-- `setFaceIndex` (also used for `idx_face_.invalidate ()`). -/
def setFaceOf (m : Mesh VD HED ED FD) (h : Nat) (o : Option Nat) :
    Option (Mesh VD HED ED FD) :=
  match m.halfEdges.get? h with
  | none => none
  | some x => some { m with halfEdges := m.halfEdges.set h { x with face := o } }

/-- `markDeleted (VertexIndex)`: invalidate the outgoing half-edge. -/
def markDeletedV (m : Mesh VD HED ED FD) (v : Nat) : Option (Mesh VD HED ED FD) :=
  setOutgoing m v none

/-- `markDeleted (HalfEdgeIndex)`: invalidate the terminating vertex. -/
def markDeletedH (m : Mesh VD HED ED FD) (h : Nat) : Option (Mesh VD HED ED FD) :=
  match m.halfEdges.get? h with
  | none => none
  | some x => some { m with halfEdges := m.halfEdges.set h { x with term := none } }

/-- `markDeleted (FaceIndex)`: invalidate the inner half-edge. -/
def markDeletedF (m : Mesh VD HED ED FD) (f : Nat) : Option (Mesh VD HED ED FD) :=
  match m.faces.get? f with
  | none => none
  | some x => some { m with faces := m.faces.set f { x with inner := none } }

/-- `connectPrevNext`: set `next (ab) = bc` and `prev (bc) = ab`. -/
def connectPrevNext (m : Mesh VD HED ED FD) (ab bc : Nat) :
    Option (Mesh VD HED ED FD) :=
  match setNext m ab (some bc) with
  | none => none
  | some m1 => setPrev m1 bc (some ab)

/-- `addVertex`: push a default vertex and its payload; the returned index
is the old number of vertices. -/
def addVertex (m : Mesh VD HED ED FD) (d : VD) : Mesh VD HED ED FD × Nat :=
  ({ m with vertices := m.vertices ++ [⟨none⟩], vData := m.vData ++ [d] },
   m.vertices.length)

/-- `addEdge`: push the half-edge pair `a→b`, `b→a`, the half-edge payload
twice and the edge payload once; the returned index is that of `a→b`
(`half_edges_.size () - 2` after the pushes). -/
def addEdge (m : Mesh VD HED ED FD) (a b : Nat) (hed : HED) (ed : ED) :
    Mesh VD HED ED FD × Nat :=
  ({ m with
      halfEdges := m.halfEdges ++ [⟨some b, none, none, none⟩, ⟨some a, none, none, none⟩],
      heData := m.heData ++ [hed, hed],
      eData := m.eData ++ [ed] },
   m.halfEdges.length)

/-- Modelled from the spec: `mesh_circulators.h` is not in the source tree.
One rotation step of the circulators that are anchored at an *outgoing*
half-edge of a vertex (`VertexAroundVertex`, `OutgoingHalfEdgeAroundVertex`
and `FaceAroundVertex`): the spec gives the canonical step
`opposite (prev (current))`. -/
def outStep (m : Mesh VD HED ED FD) (h : Nat) : Option Nat :=
  match halfEdgeAt m h with
  | none => none
  | some he =>
    match he.prv with
    | none => none
    | some p => some (getOpposite p)

/-- Modelled from the spec: `mesh_circulators.h` is not in the source tree.
One rotation step of the `IncomingHalfEdgeAroundVertex` circulator, i.e.
the rotation around the pivot vertex written on incoming half-edges; it is
the composition `prev (opposite (current))`, the incoming counterpart of
the outgoing step above. -/
def incStep (m : Mesh VD HED ED FD) (h : Nat) : Option Nat :=
  match halfEdgeAt m (getOpposite h) with
  | none => none
  | some he =>
    match he.prv with
    | none => none
    | some p => some p

/-- `checkTopology1`, manifold version (`boost::true_type`).  The result is
`(may_continue, idx_he_ab, is_new_ab)`; the out-parameters start as
(invalid, true) as in `addFaceImplBase`. -/
def checkTopology1M (m : Mesh VD HED ED FD) (va vb : Nat) :
    Option (Bool × Option Nat × Bool) :=
  match isIsolated m va with
  | none => none
  | some true => some (true, none, true)
  | some false =>
    match vertexAt m va with
    | none => none
    | some x =>
      match x.outgoing with
      | none => none
      | some heAb =>
        match isBoundaryH m heAb with
        | none => none
        | some false => some (false, some heAb, true)
        | some true =>
          match halfEdgeAt m heAb with
          | none => none
          | some he => some (true, some heAb, !(he.term == some vb))

/-- The `do { ... } while (++circ != circ_end)` walk of the
`VertexAroundVertex` circulator inside the non-manifold `checkTopology1`:
look for a neighbour equal to `vb`; on a hit the current half-edge is the
candidate `idx_he_ab`, which must be boundary.  The result triple is as in
`checkTopology1M`. -/
def vavFind (m : Mesh VD HED ED FD) (vb start cur : Nat) :
    Nat → Option (Bool × Option Nat × Bool)
  | 0 => none
  | fuel + 1 =>
    match halfEdgeAt m cur with
    | none => none
    | some he =>
      if he.term == some vb then
        match isBoundaryH m cur with
        | none => none
        | some false => some (false, some cur, false)
        | some true => some (true, some cur, false)
      else
        match he.prv with
        | none => none
        | some p =>
          if getOpposite p == start then some (true, none, true)
          else vavFind m vb start (getOpposite p) fuel

/-- `checkTopology1`, non-manifold version (`boost::false_type`). -/
def checkTopology1NM (m : Mesh VD HED ED FD) (va vb : Nat) :
    Option (Bool × Option Nat × Bool) :=
  match isIsolated m va with
  | none => none
  | some true => some (true, none, true)
  | some false =>
    match vertexAt m va with
    | none => none
    | some x =>
      match x.outgoing with
      | none => none
      | some hOut =>
        match isBoundaryH m hOut with
        | none => none
        | some false => some (false, none, true)
        | some true => vavFind m vb hOut hOut (m.halfEdges.length + 1)

/-- `checkTopology1` dispatch on the manifold policy. -/
def checkTopology1 (m : Mesh VD HED ED FD) (va vb : Nat) :
    Option (Bool × Option Nat × Bool) :=
  if m.manifold then checkTopology1M m va vb else checkTopology1NM m va vb

/-- The `do ++circ; while (!isBoundary (target))` search of the
`IncomingHalfEdgeAroundVertex` circulator inside the non-manifold
`checkTopology2`: step first, then return the first boundary target. -/
def incFindBoundary (m : Mesh VD HED ED FD) (cur : Nat) : Nat → Option Nat
  | 0 => none
  | fuel + 1 =>
    match incStep m cur with
    | none => none
    | some nx =>
      match isBoundaryH m nx with
      | none => none
      | some true => some nx
      | some false => incFindBoundary m nx fuel

/-- `checkTopology2`.  The outer `Option` is an error (assertion / UB),
the inner `Option` is `none` when the face must be rejected, and the
payload is `(make_adjacent_ab_bc, idx_free_half_edge)`. -/
def checkTopology2 (m : Mesh VD HED ED FD) (heAb heBc : Option Nat)
    (isNewAb isNewBc isoB : Bool) : Option (Option (Bool × Option Nat)) :=
  if m.manifold then
    if isNewAb && isNewBc && !isoB then some none
    else some (some (false, none))
  else
    if isNewAb || isNewBc then some (some (false, none))
    else
      match heAb, heBc with
      | some ab, some bc =>
        match halfEdgeAt m ab with
        | none => none
        | some he =>
          if he.nxt == some bc then some (some (false, none))
          else
            match incFindBoundary m (getOpposite bc) (m.halfEdges.length + 1) with
            | none => none
            | some free =>
              if free == ab then some none
              else some (some (true, some free))
      | _, _ => none

/-- `makeAdjacent`: splice the fan of the shared vertex so that
`next (ab) = bc`. -/
def makeAdjacent (m : Mesh VD HED ED FD) (ab bc free : Nat) :
    Option (Mesh VD HED ED FD) :=
  match halfEdgeAt m ab, halfEdgeAt m bc, halfEdgeAt m free with
  | some heAb, some heBc, some heFr =>
    match heAb.nxt, heBc.prv, heFr.nxt with
    | some abNext, some bcPrev, some frNext =>
      match connectPrevNext m ab bc with
      | none => none
      | some m1 =>
        match connectPrevNext m1 free abNext with
        | none => none
        | some m2 => connectPrevNext m2 bcPrev frNext
    | _, _, _ => none
  | _, _, _ => none

/-- `connectNewNew`, manifold version. -/
def connectNewNewM (m : Mesh VD HED ED FD) (ab bc vb : Nat) :
    Option (Mesh VD HED ED FD) :=
  match connectPrevNext m ab bc with
  | none => none
  | some m1 =>
    match connectPrevNext m1 (getOpposite bc) (getOpposite ab) with
    | none => none
    | some m2 => setOutgoing m2 vb (some (getOpposite ab))

/-- `connectNewNew`, non-manifold version: an isolated shared vertex is
handled by the manifold version, otherwise the new pair is spliced into
the existing fan through the current outgoing half-edge. -/
def connectNewNewNM (m : Mesh VD HED ED FD) (ab bc vb : Nat) :
    Option (Mesh VD HED ED FD) :=
  match isIsolated m vb with
  | none => none
  | some true => connectNewNewM m ab bc vb
  | some false =>
    match vertexAt m vb with
    | none => none
    | some x =>
      match x.outgoing with
      | none => none
      | some bOut =>
        match halfEdgeAt m bOut with
        | none => none
        | some he =>
          match he.prv with
          | none => none
          | some bOutPrev =>
            match connectPrevNext m ab bc with
            | none => none
            | some m1 =>
              match connectPrevNext m1 (getOpposite bc) bOut with
              | none => none
              | some m2 => connectPrevNext m2 bOutPrev (getOpposite ab)

/-- `connectNewNew` dispatch on the manifold policy. -/
def connectNewNew (m : Mesh VD HED ED FD) (ab bc vb : Nat) :
    Option (Mesh VD HED ED FD) :=
  if m.manifold then connectNewNewM m ab bc vb else connectNewNewNM m ab bc vb

/-- `connectNewOld`. -/
def connectNewOld (m : Mesh VD HED ED FD) (ab bc vb : Nat) :
    Option (Mesh VD HED ED FD) :=
  match halfEdgeAt m bc with
  | none => none
  | some he =>
    match he.prv with
    | none => none
    | some bcPrev =>
      match connectPrevNext m ab bc with
      | none => none
      | some m1 =>
        match connectPrevNext m1 bcPrev (getOpposite ab) with
        | none => none
        | some m2 => setOutgoing m2 vb (some (getOpposite ab))

/-- `connectOldNew`. -/
def connectOldNew (m : Mesh VD HED ED FD) (ab bc vb : Nat) :
    Option (Mesh VD HED ED FD) :=
  match halfEdgeAt m ab with
  | none => none
  | some he =>
    match he.nxt with
    | none => none
    | some abNext =>
      match connectPrevNext m ab bc with
      | none => none
      | some m1 =>
        match connectPrevNext m1 (getOpposite bc) abNext with
        | none => none
        | some m2 => setOutgoing m2 vb (some abNext)

/-- The `while (++circ != circ_end)` search of the non-manifold
`connectOldOld`: rotate the outgoing fan, step first, looking for a
boundary half-edge to re-anchor `outgoing (v_b)`; if the walk returns to
the start without a hit, leave the vertex unchanged. -/
def oldOldFix (m : Mesh VD HED ED FD) (vb start cur : Nat) :
    Nat → Option (Mesh VD HED ED FD)
  | 0 => none
  | fuel + 1 =>
    match outStep m cur with
    | none => none
    | some nx =>
      if nx == start then some m
      else
        match isBoundaryH m nx with
        | none => none
        | some true => setOutgoing m vb (some nx)
        | some false => oldOldFix m vb start nx fuel

/-- `connectOldOld`: a no-op in the manifold version; the non-manifold
version re-anchors `outgoing (v_b)` at a boundary half-edge when the old
outgoing half-edge `bc` has just become interior. -/
def connectOldOld (m : Mesh VD HED ED FD) (bc vb : Nat) :
    Option (Mesh VD HED ED FD) :=
  if m.manifold then some m
  else
    match vertexAt m vb with
    | none => none
    | some x =>
      if x.outgoing == some bc then
        oldOldFix m vb bc bc (m.halfEdges.length + 1)
      else some m

/-- The `setFaceIndex` loop of `connectFace`. -/
def setFaceLoop (m : Mesh VD HED ED FD) (idx : Nat) :
    List Nat → Option (Mesh VD HED ED FD)
  | [] => some m
  | h :: rest =>
    match setFaceOf m h (some idx) with
    | none => none
    | some m1 => setFaceLoop m1 idx rest

/-- `connectFace`: push a face whose inner half-edge is the *last* entry
of `inner_he`, push the face payload, and point every inner half-edge at
the new face. -/
def connectFace (m : Mesh VD HED ED FD) (innerHe : List Nat) (fd : FD) :
    Option (Mesh VD HED ED FD × Nat) :=
  match innerHe.getLast? with
  | none => none
  | some last =>
    match setFaceLoop
        { m with faces := m.faces ++ [⟨some last⟩], fData := m.fData ++ [fd] }
        m.faces.length innerHe with
    | none => none
    | some m2 => some (m2, m.faces.length)

/-- The edge-allocation loop of the isolated-vertex fast path of
`addFaceImplBase`: one `addEdge` per vertex pair, collecting the inner
half-edge indices. -/
def addEdgeLoop (m : Mesh VD HED ED FD) (hed : HED) (ed : ED) :
    List (Nat × Nat) → Mesh VD HED ED FD × List Nat
  | [] => (m, [])
  | (a, b) :: rest =>
    let r := addEdge m a b hed ed
    let t := addEdgeLoop r.1 hed ed rest
    (t.1, r.2 :: t.2)

/-- The `connectNewNew` loop of the isolated-vertex fast path. -/
def connectLoopNewNew (m : Mesh VD HED ED FD) :
    List ((Nat × Nat) × Nat) → Option (Mesh VD HED ED FD)
  | [] => some m
  | ((ab, bc), vb) :: rest =>
    match connectNewNew m ab bc vb with
    | none => none
    | some m1 => connectLoopNewNew m1 rest

/-- The isolated-vertex fast path of `addFaceImplBase`. -/
def addFaceIsolated (m : Mesh VD HED ED FD) (vs : List Nat)
    (fd : FD) (ed : ED) (hed : HED) :
    Option (Mesh VD HED ED FD × Option Nat) :=
  match addEdgeLoop m hed ed (vs.zip (vs.rotate 1)) with
  | (m1, ihe) =>
    match connectLoopNewNew m1 ((ihe.zip (ihe.rotate 1)).zip (vs.rotate 1)) with
    | none => none
    | some m2 =>
      match connectFace m2 ihe fd with
      | none => none
      | some (m3, f) => some (m3, some f)

/-- The `checkTopology1` loop of the general path; the inner `Option` is
`none` when some check rejects the face. -/
def checkTop1Loop (m : Mesh VD HED ED FD) :
    List (Nat × Nat) → Option (Option (List (Option Nat × Bool)))
  | [] => some (some [])
  | (a, b) :: rest =>
    match checkTopology1 m a b with
    | none => none
    | some (ok, he, isNew) =>
      if ok then
        match checkTop1Loop m rest with
        | none => none
        | some none => some none
        | some (some l) => some (some ((he, isNew) :: l))
      else some none

/-- The `checkTopology2` loop of the general path. -/
def checkTop2Loop (m : Mesh VD HED ED FD) :
    List (((Option Nat × Bool) × (Option Nat × Bool)) × Nat) →
    Option (Option (List (Bool × Option Nat)))
  | [] => some (some [])
  | (((heAb, isNewAb), (heBc, isNewBc)), vb) :: rest =>
    match isIsolated m vb with
    | none => none
    | some isoB =>
      match checkTopology2 m heAb heBc isNewAb isNewBc isoB with
      | none => none
      | some none => some none
      | some (some entry) =>
        match checkTop2Loop m rest with
        | none => none
        | some none => some none
        | some (some l) => some (some (entry :: l))

/-- The `makeAdjacent` loop of the general path (non-manifold only). -/
def makeAdjacentLoop (m : Mesh VD HED ED FD) :
    List ((Bool × Option Nat) × (Option Nat × Option Nat)) →
    Option (Mesh VD HED ED FD)
  | [] => some m
  | ((doIt, free), (heAb, heBc)) :: rest =>
    if doIt then
      match heAb, heBc, free with
      | some ab, some bc, some fr =>
        match makeAdjacent m ab bc fr with
        | none => none
        | some m1 => makeAdjacentLoop m1 rest
      | _, _, _ => none
    else makeAdjacentLoop m rest

/-- The edge-allocation loop of the general path: allocate a fresh pair
for every new slot, keeping the half-edge found by `checkTopology1` for
the old slots. -/
def fillNewEdges (m : Mesh VD HED ED FD) (hed : HED) (ed : ED) :
    List ((Nat × Nat) × (Option Nat × Bool)) →
    Option (Mesh VD HED ED FD × List Nat)
  | [] => some (m, [])
  | ((a, b), (he, isNew)) :: rest =>
    if isNew then
      let r := addEdge m a b hed ed
      match fillNewEdges r.1 hed ed rest with
      | none => none
      | some (m1, l) => some (m1, r.2 :: l)
    else
      match he with
      | none => none
      | some x =>
        match fillNewEdges m hed ed rest with
        | none => none
        | some (m1, l) => some (m1, x :: l)

/-- The final connect loop of the general path, dispatching on the
`(is_new [i], is_new [j])` flags. -/
def connectLoop (m : Mesh VD HED ED FD) :
    List (((Nat × Bool) × (Nat × Bool)) × Nat) → Option (Mesh VD HED ED FD)
  | [] => some m
  | (((ab, newAb), (bc, newBc)), vb) :: rest =>
    let step :=
      if newAb then
        if newBc then connectNewNew m ab bc vb else connectNewOld m ab bc vb
      else
        if newBc then connectOldNew m ab bc vb else connectOldOld m bc vb
    match step with
    | none => none
    | some m1 => connectLoop m1 rest

/-- The general (not all-isolated) path of `addFaceImplBase`. -/
def addFaceGeneral (m : Mesh VD HED ED FD) (vs : List Nat)
    (fd : FD) (ed : ED) (hed : HED) :
    Option (Mesh VD HED ED FD × Option Nat) :=
  match checkTop1Loop m (vs.zip (vs.rotate 1)) with
  | none => none
  | some none => some (m, none)
  | some (some flags1) =>
    match checkTop2Loop m ((flags1.zip (flags1.rotate 1)).zip (vs.rotate 1)) with
    | none => none
    | some none => some (m, none)
    | some (some flags2) =>
      match (if m.manifold then some m
             else makeAdjacentLoop m
               (flags2.zip ((flags1.map Prod.fst).zip ((flags1.rotate 1).map Prod.fst)))) with
      | none => none
      | some mA =>
        match fillNewEdges mA hed ed ((vs.zip (vs.rotate 1)).zip flags1) with
        | none => none
        | some (mB, ihe) =>
          match connectLoop mB
              (((ihe.zip (flags1.map Prod.snd)).zip
                ((ihe.zip (flags1.map Prod.snd)).rotate 1)).zip (vs.rotate 1)) with
          | none => none
          | some mC =>
            match connectFace mC ihe fd with
            | none => none
            | some (mD, f) => some (mD, some f)

/-- `addFaceImplBase`: arity, validity, uniqueness and isolation scan, then
the fast or the general path.  A structural rejection returns the invalid
face index (`none` in the second component) with the mesh unchanged. -/
def addFaceImplBase (m : Mesh VD HED ED FD) (vs : List Nat)
    (fd : FD) (ed : ED) (hed : HED) :
    Option (Mesh VD HED ED FD × Option Nat) :=
  if vs.length < 3 then some (m, none)
  else if vs.any (fun v => !(isValidV m v)) then some (m, none)
  else if !(List.Nodup vs : Bool) then some (m, none)
  else
    match mapO (isIsolated m) vs with
    | none => none
    | some flags =>
      if flags.all id then addFaceIsolated m vs fd ed hed
      else addFaceGeneral m vs fd ed hed

/-- The `InnerHalfEdgeAroundFace` walk (follow `next`) used by the
non-manifold `deleteFace` to snapshot the inner half-edges of the face. -/
def cycleFrom (m : Mesh VD HED ED FD) (start cur : Nat) :
    Nat → Option (List Nat)
  | 0 => none
  | fuel + 1 =>
    match halfEdgeAt m cur with
    | none => none
    | some he =>
      match he.nxt with
      | none => none
      | some nx =>
        if nx == start then some [cur]
        else
          match cycleFrom m start nx fuel with
          | none => none
          | some l => some (cur :: l)

/-- The inner half-edge cycle of a face, starting at its inner half-edge. -/
def innerCycle (m : Mesh VD HED ED FD) (f : Nat) : Option (List Nat) :=
  match faceAt m f with
  | none => none
  | some x =>
    match x.inner with
    | none => none
    | some h0 => cycleFrom m h0 h0 (m.halfEdges.length + 1)

/-- The `while (!isBoundary (target))` worklist filler of the manifold
`reconnect` branch where neither edge is boundary and the vertex is
boundary: push the face of the current incoming half-edge, then step
(post-increment), until a boundary half-edge is reached.  The stack grows
with `push` = cons. -/
def collectNB (m : Mesh VD HED ED FD) (cur : Nat) (stack : List Nat) :
    Nat → Option (List Nat)
  | 0 => none
  | fuel + 1 =>
    match isBoundaryH m cur with
    | none => none
    | some true => some stack
    | some false =>
      match halfEdgeAt m cur with
      | none => none
      | some he =>
        match he.face with
        | none => none
        | some fv =>
          match incStep m cur with
          | none => none
          | some nx => collectNB m nx (fv :: stack) fuel

/-- `reconnectNBNB`: the branch of `reconnect` where neither edge is on
the boundary, dispatched on the manifold policy. -/
def reconnectNBNB (m : Mesh VD HED ED FD) (bc cb vb : Nat)
    (stack : List Nat) : Option (Mesh VD HED ED FD × List Nat) :=
  if m.manifold then
    match isBoundaryV m vb with
    | none => none
    | some true =>
      match collectNB m cb stack (m.halfEdges.length + 1) with
      | none => none
      | some st1 => some (m, st1)
    | some false =>
      match setOutgoing m vb (some bc) with
      | none => none
      | some m1 => some (m1, stack)
  else
    match isBoundaryV m vb with
    | none => none
    | some false =>
      match setOutgoing m vb (some bc) with
      | none => none
      | some m1 => some (m1, stack)
    | some true => some (m, stack)

/-- `reconnect`: detach the corner `(ab, bc)` of a face being deleted,
repairing the links around the shared vertex `b`; the two booleans are
the snapshot values `is_boundary (opposite (ab))`,
`is_boundary (opposite (bc))`. -/
def reconnect (m : Mesh VD HED ED FD) (ab bc : Nat) (bBa bCb : Bool)
    (stack : List Nat) : Option (Mesh VD HED ED FD × List Nat) :=
  let ba := getOpposite ab
  let cb := getOpposite bc
  match halfEdgeAt m ab with
  | none => none
  | some heAb =>
    if bBa && bCb then
      match halfEdgeAt m cb with
      | none => none
      | some heCb =>
        match heCb.nxt with
        | none => none
        | some cbNext =>
          if cbNext == ba then
            match heAb.term with
            | none => none
            | some vb =>
              match markDeletedV m vb with
              | none => none
              | some m1 =>
                match markDeletedH m1 ab with
                | none => none
                | some m2 =>
                  match markDeletedH m2 ba with
                  | none => none
                  | some m3 => some (m3, stack)
          else
            match halfEdgeAt m ba with
            | none => none
            | some heBa =>
              match heBa.prv with
              | none => none
              | some baPrev =>
                match connectPrevNext m baPrev cbNext with
                | none => none
                | some m1 =>
                  match heAb.term with
                  | none => none
                  | some vb =>
                    match setOutgoing m1 vb (some cbNext) with
                    | none => none
                    | some m2 =>
                      match markDeletedH m2 ab with
                      | none => none
                      | some m3 =>
                        match markDeletedH m3 ba with
                        | none => none
                        | some m4 => some (m4, stack)
    else if bBa && !bCb then
      match halfEdgeAt m ba with
      | none => none
      | some heBa =>
        match heBa.prv with
        | none => none
        | some baPrev =>
          match connectPrevNext m baPrev bc with
          | none => none
          | some m1 =>
            match heAb.term with
            | none => none
            | some vb =>
              match setOutgoing m1 vb (some bc) with
              | none => none
              | some m2 =>
                match markDeletedH m2 ab with
                | none => none
                | some m3 =>
                  match markDeletedH m3 ba with
                  | none => none
                  | some m4 => some (m4, stack)
    else if !bBa && bCb then
      match halfEdgeAt m cb with
      | none => none
      | some heCb =>
        match heCb.nxt with
        | none => none
        | some cbNext =>
          match connectPrevNext m ab cbNext with
          | none => none
          | some m1 =>
            match heAb.term with
            | none => none
            | some vb =>
              match setOutgoing m1 vb (some cbNext) with
              | none => none
              | some m2 => some (m2, stack)
    else
      match heAb.term with
      | none => none
      | some vb => reconnectNBNB m bc cb vb stack

/-- The corner loop of the non-manifold `deleteFace`: `reconnect` every
adjacent pair of inner half-edges, invalidating `face (inner_he [i])`
after each corner. -/
def reconnectLoop (m : Mesh VD HED ED FD) (stack : List Nat) :
    List ((Nat × Nat) × (Bool × Bool)) → Option (Mesh VD HED ED FD × List Nat)
  | [] => some (m, stack)
  | ((ab, bc), (bBa, bCb)) :: rest =>
    match reconnect m ab bc bBa bCb stack with
    | none => none
    | some (m1, st1) =>
      match setFaceOf m1 ab none with
      | none => none
      | some m2 => reconnectLoop m2 st1 rest

/-- `deleteFace`, non-manifold version (`boost::false_type`): snapshot the
inner half-edges and the boundary flags of their opposites, reconnect all
corners, clear the face references and tombstone the face.  The stack is
threaded through for the manifold cascade. -/
def deleteFaceNM (m : Mesh VD HED ED FD) (f : Nat) (stack : List Nat) :
    Option (Mesh VD HED ED FD × List Nat) :=
  match isDeletedF m f with
  | none => none
  | some true => some (m, stack)
  | some false =>
    match innerCycle m f with
    | none => none
    | some ihe =>
      if ihe.length < 3 then none
      else
        match mapO (fun h => isBoundaryH m (getOpposite h)) ihe with
        | none => none
        | some bnd =>
          match reconnectLoop m stack ((ihe.zip (ihe.rotate 1)).zip (bnd.zip (bnd.rotate 1))) with
          | none => none
          | some (m1, st1) =>
            match markDeletedF m1 f with
            | none => none
            | some m2 => some (m2, st1)

/-- The worklist loop of the manifold `deleteFace` (`boost::true_type`):
pop a face, run the non-manifold deletion (whose `reconnect` may push
more faces), repeat until the stack is empty. -/
def processStack (m : Mesh VD HED ED FD) (stack : List Nat) :
    Nat → Option (Mesh VD HED ED FD)
  | 0 => none
  | fuel + 1 =>
    match stack with
    | [] => some m
    | f :: rest =>
      match deleteFaceNM m f rest with
      | none => none
      | some (m1, st1) => processStack m1 st1 fuel

/-- Fuel bound for the manifold deletion worklist. -/
def delFuel (m : Mesh VD HED ED FD) : Nat :=
  (m.faces.length + 1) * (m.faces.length + m.halfEdges.length + 2)

/-- Public `deleteFace`: assert validity, skip already-deleted faces, then
run the policy-dispatched deletion. -/
def deleteFace (m : Mesh VD HED ED FD) (f : Nat) : Option (Mesh VD HED ED FD) :=
  if !(isValidF m f) then none
  else
    match isDeletedF m f with
    | none => none
    | some true => some m
    | some false =>
      if m.manifold then processStack m [f] (delFuel m)
      else
        match deleteFaceNM m f [] with
        | none => none
        | some (m1, _) => some m1

/-- `deleteEdge (HalfEdgeIndex)`: tombstone a boundary half-edge directly,
otherwise delete its incident face; then the same for the opposite
half-edge on the updated mesh. -/
def deleteEdgeH (m : Mesh VD HED ED FD) (h : Nat) : Option (Mesh VD HED ED FD) :=
  if !(isValidH m h) then none
  else
    match isDeletedH m h with
    | none => none
    | some true => some m
    | some false =>
      let opp := getOpposite h
      match isBoundaryH m h with
      | none => none
      | some b1 =>
        let step1 : Option (Mesh VD HED ED FD) :=
          if b1 then markDeletedH m h
          else
            match halfEdgeAt m h with
            | none => none
            | some he =>
              match he.face with
              | none => none
              | some f => deleteFace m f
        match step1 with
        | none => none
        | some m1 =>
          match isBoundaryH m1 opp with
          | none => none
          | some b2 =>
            if b2 then markDeletedH m1 opp
            else
              match halfEdgeAt m1 opp with
              | none => none
              | some he =>
                match he.face with
                | none => none
                | some f => deleteFace m1 f

/-- `deleteEdge (EdgeIndex)`: skip deleted edges, then delegate to the
half-edge form on the first half-edge of the pair. -/
def deleteEdgeE (m : Mesh VD HED ED FD) (e : Nat) : Option (Mesh VD HED ED FD) :=
  if !(isValidE m e) then none
  else
    match isDeletedE m e with
    | none => none
    | some true => some m
    | some false => deleteEdgeH m (toHalfEdgeIndex e true)

/-- The `FaceAroundVertex` collection walk of `deleteVertex`: starting at
the outgoing half-edge, record the (possibly sentinel) face of every
outgoing half-edge of the fan. -/
def favWalk (m : Mesh VD HED ED FD) (start cur : Nat) :
    Nat → Option (List (Option Nat))
  | 0 => none
  | fuel + 1 =>
    match halfEdgeAt m cur with
    | none => none
    | some he =>
      match he.prv with
      | none => none
      | some p =>
        if getOpposite p == start then some [he.face]
        else
          match favWalk m start (getOpposite p) fuel with
          | none => none
          | some l => some (he.face :: l)

/-- The deletion loop of `deleteVertex` over the snapshot of collected
face indices; a sentinel entry trips the `isValid` assertion of
`deleteFace`. -/
def deleteFaceList (m : Mesh VD HED ED FD) :
    List (Option Nat) → Option (Mesh VD HED ED FD)
  | [] => some m
  | none :: _ => none
  | some f :: rest =>
    match deleteFace m f with
    | none => none
    | some m1 => deleteFaceList m1 rest

/-- `deleteVertex`: snapshot the faces around the vertex, then delete each
collected face index in order (an invalid collected index trips the
`isValid` assertion inside `deleteFace`). -/
def deleteVertex (m : Mesh VD HED ED FD) (v : Nat) : Option (Mesh VD HED ED FD) :=
  if !(isValidV m v) then none
  else
    match isDeletedV m v with
    | none => none
    | some true => some m
    | some false =>
      match vertexAt m v with
      | none => none
      | some x =>
        match x.outgoing with
        | none => none
        | some h0 =>
          match favWalk m h0 h0 (m.halfEdges.length + 1) with
          | none => none
          | some fi => deleteFaceList m fi

/-- `isManifold (VertexIndex)`, non-manifold version: inner do-while of
the outgoing circulator, testing every element after the start. -/
def manifoldLoop (m : Mesh VD HED ED FD) (start cur : Nat) :
    Nat → Option Bool
  | 0 => none
  | fuel + 1 =>
    match isBoundaryH m cur with
    | none => none
    | some true => some false
    | some false =>
      match outStep m cur with
      | none => none
      | some nx =>
        if nx == start then some true
        else manifoldLoop m start nx fuel

/-- `isManifold (VertexIndex)`, non-manifold version: true immediately if
the outgoing half-edge is not boundary; otherwise false iff any other
half-edge of the outgoing fan is boundary. -/
def isManifoldNM (m : Mesh VD HED ED FD) (v : Nat) : Option Bool :=
  match vertexAt m v with
  | none => none
  | some x =>
    match x.outgoing with
    | none => none
    | some h0 =>
      match isBoundaryH m h0 with
      | none => none
      | some false => some true
      | some true =>
        match outStep m h0 with
        | none => none
        | some h1 => manifoldLoop m h0 h1 (m.halfEdges.length + 1)

/-- `isManifold (VertexIndex)`: trivially true in the manifold policy. -/
def isManifoldV (m : Mesh VD HED ED FD) (v : Nat) : Option Bool :=
  if !(isValidV m v) then none
  else if m.manifold then some true
  else isManifoldNM m v

/-- The compaction pass of `remove`: walk the elements, keep the
non-deleted ones in order, and record for every old position either its
new position or the invalid sentinel. -/
def removeElems {α : Type} (del : Nat → Bool) :
    List α → Nat → Nat → List α × List (Option Nat)
  | [], _, _ => ([], [])
  | e :: es, k, cnt =>
    if del k then
      let r := removeElems del es (k + 1) cnt
      (r.1, none :: r.2)
    else
      let r := removeElems del es (k + 1) (cnt + 1)
      (e :: r.1, some cnt :: r.2)

/-- The payload half of `remove`: keep the payload entries of the
surviving elements, in order. -/
def removeData {β : Type} (del : Nat → Bool) : List β → Nat → List β
  | [], _ => []
  | d :: ds, k => if del k then removeData del ds (k + 1) else d :: removeData del ds (k + 1)

/-- `std::vector::resize (n, fill)`. -/
def listResize {β : Type} (l : List β) (n : Nat) (fill : β) : List β :=
  if n ≤ l.length then l.take n
  else l ++ List.replicate (n - l.length) fill

/-- The edge-payload compaction of `cleanUp`: walk the half-edge remap two
entries at a time and keep the edge payload of every surviving pair. -/
def removeEdgeData {β : Type} : List (Option Nat) → List β → List β
  | a :: _ :: rest, d :: ds =>
    if a.isSome then d :: removeEdgeData rest ds else removeEdgeData rest ds
  | _, _ => []

/-- Deletedness of the vertex at an old position, for `cleanUp`. -/
def delV (m : Mesh VD HED ED FD) (k : Nat) : Bool :=
  match m.vertices.get? k with
  | some x => x.outgoing.isNone
  | none => false

/-- Deletedness of the half-edge at an old position, for `cleanUp`. -/
def delH (m : Mesh VD HED ED FD) (k : Nat) : Bool :=
  match m.halfEdges.get? k with
  | some x => x.term.isNone
  | none => false

/-- Deletedness of the face at an old position, for `cleanUp`. -/
def delF (m : Mesh VD HED ED FD) (k : Nat) : Bool :=
  match m.faces.get? k with
  | some x => x.inner.isNone
  | none => false

/-- Remap a stored index that the source guards with `isValid ()` first:
a sentinel stays a sentinel. -/
def mapOpt (tbl : List (Option Nat)) (idx : Option Nat) : Option (Option Nat) :=
  match idx with
  | none => some none
  | some i => tbl.get? i

/-- Remap a stored index that the source reads unconditionally: a sentinel
trips the out-of-range access. -/
def mapReq (tbl : List (Option Nat)) (idx : Option Nat) : Option (Option Nat) :=
  match idx with
  | none => none
  | some i => tbl.get? i

/-- The vertex rewrite of the index-adjustment pass of `cleanUp`. -/
def rewriteVertex (nhe : List (Option Nat)) (x : Vertex) : Option Vertex :=
  match mapOpt nhe x.outgoing with
  | none => none
  | some o => some ⟨o⟩

/-- The half-edge rewrite of the index-adjustment pass of `cleanUp`. -/
def rewriteHalfEdge (nv nhe nf : List (Option Nat)) (x : HalfEdge) :
    Option HalfEdge :=
  match mapReq nv x.term, mapReq nhe x.nxt, mapReq nhe x.prv, mapOpt nf x.face with
  | some t, some n, some p, some fc => some ⟨t, n, p, fc⟩
  | _, _, _, _ => none

/-- The face rewrite of the index-adjustment pass of `cleanUp`. -/
def rewriteFace (nhe : List (Option Nat)) (x : Face) : Option Face :=
  match mapReq nhe x.inner with
  | none => none
  | some i => some ⟨i⟩

/-- `cleanUp`: compact the three element sequences and their payloads
(recording the old-to-new maps), compact the per-edge payload by pairs of
half-edges, then rewrite every stored cross-reference through the maps.
The guards model the `elements.size () == data_cloud.size ()` assertions
of `remove` and the edge-payload loop's reliance on a matching payload
length. -/
def cleanUp [Inhabited ED] (m : Mesh VD HED ED FD) : Option (Mesh VD HED ED FD) :=
  if m.vData.length ≠ m.vertices.length then none
  else if m.heData.length ≠ m.halfEdges.length then none
  else if m.fData.length ≠ m.faces.length then none
  else if m.eData.length ≠ m.halfEdges.length / 2 then none
  else
    let rv := removeElems (delV m) m.vertices 0 0
    let rh := removeElems (delH m) m.halfEdges 0 0
    let rf := removeElems (delF m) m.faces 0 0
    let vd := removeData (delV m) m.vData 0
    let hd := removeData (delH m) m.heData 0
    let fd := removeData (delF m) m.fData 0
    let ed := listResize (removeEdgeData rh.2 m.eData) (rh.1.length / 2) default
    match mapO (rewriteVertex rh.2) rv.1 with
    | none => none
    | some v2 =>
      match mapO (rewriteHalfEdge rv.2 rh.2 rf.2) rh.1 with
      | none => none
      | some h2 =>
        match mapO (rewriteFace rh.2) rf.1 with
        | none => none
        | some f2 =>
          some { manifold := m.manifold, vertices := v2, halfEdges := h2,
                 faces := f2, vData := vd, heData := hd, eData := ed, fData := fd }

/-- `resizeData`: the source body is `data.resize (n, data);`, which
resizes the *fill-value parameter* instead of the payload cloud
`data_cloud`; the cloud is left untouched.  (The doc comment of the source
says "Resize the mesh data."; see the `resize_data` remark in the spec.) -/
def resizeData {β : Type} (dataCloud : List β) (n : Nat) (d : β) : List β :=
  dataCloud

/-- `resizeVertices`: resize the vertex sequence (default-constructed new
vertices) and call `resizeData` on the vertex payload. -/
def resizeVertices (m : Mesh VD HED ED FD) (n : Nat) (d : VD) : Mesh VD HED ED FD :=
  { m with vertices := listResize m.vertices n ⟨none⟩,
           vData := resizeData m.vData n d }

/-- `resizeEdges`: resize the half-edge sequence to `2 n` and call
`resizeData` on the half-edge and edge payloads. -/
def resizeEdges (m : Mesh VD HED ED FD) (n : Nat) (ed : ED) (hed : HED) :
    Mesh VD HED ED FD :=
  { m with halfEdges := listResize m.halfEdges (2 * n) ⟨none, none, none, none⟩,
           heData := resizeData m.heData (2 * n) hed,
           eData := resizeData m.eData n ed }

/-- `resizeFaces`: resize the face sequence and call `resizeData` on the
face payload. -/
def resizeFaces (m : Mesh VD HED ED FD) (n : Nat) (d : FD) : Mesh VD HED ED FD :=
  { m with faces := listResize m.faces n ⟨none⟩,
           fData := resizeData m.fData n d }

/-! ## Concrete meshes used as witnesses -/

/-- The empty mesh with the manifold policy and trivial payload types. -/
def meshU0 : Mesh Unit Unit Unit Unit := ⟨true, [], [], [], [], [], [], []⟩

/-- The empty mesh with the non-manifold policy. -/
def meshN0 : Mesh Unit Unit Unit Unit := ⟨false, [], [], [], [], [], [], []⟩

/-- Add a vertex with trivial payload. -/
def addVU (m : Mesh Unit Unit Unit Unit) : Mesh Unit Unit Unit Unit :=
  (addVertex m ()).1

/-- Building a single triangle on three fresh vertices. -/
def triO : Option (Mesh Unit Unit Unit Unit × Option Nat) :=
  addFaceImplBase (addVU (addVU (addVU meshU0))) [0, 1, 2] () () ()

/-- The single-triangle mesh. -/
def triMesh : Mesh Unit Unit Unit Unit := (triO.getD (meshU0, none)).1

/-- Building a closed umbrella: three triangles around the interior
vertex `0`, rim `1, 2, 3`. -/
def umbO : Option (Mesh Unit Unit Unit Unit × Option Nat) :=
  match addFaceImplBase (addVU (addVU (addVU (addVU meshU0)))) [0, 1, 2] () () () with
  | none => none
  | some (m5, _) =>
    match addFaceImplBase m5 [0, 2, 3] () () () with
    | none => none
    | some (m6, _) => addFaceImplBase m6 [0, 3, 1] () () ()

/-- The umbrella mesh: vertex `0` is interior. -/
def umbrella : Mesh Unit Unit Unit Unit := (umbO.getD (meshU0, none)).1

/-- Two triangles sharing the edge `1`–`2`. -/
def twoO : Option (Mesh Unit Unit Unit Unit × Option Nat) :=
  match addFaceImplBase (addVU (addVU (addVU (addVU meshU0)))) [0, 1, 2] () () () with
  | none => none
  | some (m5, _) => addFaceImplBase m5 [1, 3, 2] () () ()

/-- The two-triangle mesh. -/
def twoTri : Mesh Unit Unit Unit Unit := (twoO.getD (meshU0, none)).1

/-- The two-triangle mesh after deleting face `0`. -/
def twoDel : Mesh Unit Unit Unit Unit := (deleteFace twoTri 0).getD meshU0

/-- Two disjoint triangles plus a seventh isolated vertex. -/
def twoSepO : Option (Mesh Unit Unit Unit Unit × Option Nat) :=
  let m6 := addVU (addVU (addVU (addVU (addVU (addVU meshU0)))))
  match addFaceImplBase m6 [0, 1, 2] () () () with
  | none => none
  | some (m7, _) => addFaceImplBase m7 [3, 4, 5] () () ()

/-- Two disjoint triangles plus an isolated vertex `6`. -/
def twoSep : Mesh Unit Unit Unit Unit := addVU ((twoSepO.getD (meshU0, none)).1)

/-- A bowtie in the non-manifold policy: two triangles sharing only the
vertex `0`. -/
def bowO : Option (Mesh Unit Unit Unit Unit × Option Nat) :=
  let m5 := (addVertex (addVertex (addVertex (addVertex (addVertex meshN0 ()).1 ()).1 ()).1 ()).1 ()).1
  match addFaceImplBase m5 [0, 1, 2] () () () with
  | none => none
  | some (m6, _) => addFaceImplBase m6 [0, 3, 4] () () ()

/-- The bowtie mesh. -/
def bowtie : Mesh Unit Unit Unit Unit := (bowO.getD (meshN0, none)).1

/-- The empty mesh with `Nat` payloads, for the resize claim. -/
def meshP0 : Mesh Nat Nat Nat Nat := ⟨true, [], [], [], [], [], [], []⟩

/-! ## C10: addVertex -/

/-- C10.  `addVertex` always succeeds; the returned index is the old
number of vertices and is valid afterwards; the new vertex is isolated;
the vertex sequence and payload only grow by the new entry and every
other element sequence and payload sequence is untouched. -/
theorem c10_addVertex (m : Mesh VD HED ED FD) (d : VD) :
    (addVertex m d).2 = sizeVertices m ∧
    isValidV (addVertex m d).1 (addVertex m d).2 = true ∧
    isIsolated (addVertex m d).1 (addVertex m d).2 = some true ∧
    (addVertex m d).1.vertices = m.vertices ++ [⟨none⟩] ∧
    (addVertex m d).1.vData = m.vData ++ [d] ∧
    (addVertex m d).1.halfEdges = m.halfEdges ∧
    (addVertex m d).1.faces = m.faces ∧
    (addVertex m d).1.heData = m.heData ∧
    (addVertex m d).1.eData = m.eData ∧
    (addVertex m d).1.fData = m.fData ∧
    (addVertex m d).1.manifold = m.manifold := by
  refine ⟨rfl, ?_, ?_, rfl, rfl, rfl, rfl, rfl, rfl, rfl, rfl⟩
  · simp [addVertex, isValidV]
  · simp [addVertex, isIsolated, vertexAt, List.get?_concat_length]

/-! ## C9: resizeVertices / resizeEdges / resizeFaces and the
resizeData bug -/

/-- C9 (code bug).  `resizeVertices (2, 7)` on an empty mesh with vertex
payload grows the vertex sequence to length `2` but leaves the payload
cloud empty, because the body of `resizeData` resizes its fill-value
parameter `data` instead of `data_cloud`; the same happens for edges,
half-edges and faces.  The claimed length equality fails. -/
theorem c9_resizeData_bug :
    (resizeVertices meshP0 2 7).vertices.length = 2 ∧
    (resizeVertices meshP0 2 7).vData.length = 0 ∧
    ¬ ((resizeVertices meshP0 2 7).vData.length =
       (resizeVertices meshP0 2 7).vertices.length) ∧
    (resizeEdges meshP0 2 7 8).halfEdges.length = 4 ∧
    (resizeEdges meshP0 2 7 8).heData.length = 0 ∧
    (resizeEdges meshP0 2 7 8).eData.length = 0 ∧
    (resizeFaces meshP0 2 7).faces.length = 2 ∧
    (resizeFaces meshP0 2 7).fData.length = 0 := by
  decide

/-! ## C7: the opposite half-edge encoding -/

/-- C7.  With the even half-edge count maintained by the mesh (half-edges
are only ever allocated in pairs by `addEdge`), the opposite of a valid
half-edge index `h` is `h XOR 1`; consequently taking opposites twice is
the identity, no half-edge is its own opposite, and the opposite of a
valid index is valid. -/
theorem c7_opposite (m : Mesh VD HED ED FD) (h : Nat)
    (hev : Even (sizeHalfEdges m)) (hv : isValidH m h = true) :
    getOpposite h = h ^^^ 1 ∧
    getOpposite (getOpposite h) = h ∧
    getOpposite h ≠ h ∧
    isValidH m (getOpposite h) = true := by
  have heven : ∀ k : Nat, getOpposite (2 * k) = 2 * k + 1 := by
    intro k
    have hm : (2 * k) % 2 = 0 := by omega
    simp [getOpposite, hm]
  have hodd : ∀ k : Nat, getOpposite (2 * k + 1) = 2 * k := by
    intro k
    have hm : (2 * k + 1) % 2 = 1 := by omega
    simp [getOpposite, hm]
  have hvlen : h < m.halfEdges.length := by
    simpa [isValidH] using hv
  have hevmod : m.halfEdges.length % 2 = 0 := by
    obtain ⟨k, hk⟩ := hev
    simp only [sizeHalfEdges] at hk
    omega
  rcases Nat.even_or_odd h with he | ho
  · obtain ⟨k, hk⟩ := he
    have hn : h = 2 * k := by omega
    subst hn
    have hx : (2 * k) ^^^ 1 = 2 * k + 1 := by
      have h1 := Nat.xor_bit false k true 0
      simpa [Nat.bit_val] using h1
    refine ⟨by rw [heven, hx], by rw [heven, hodd], by rw [heven]; omega, ?_⟩
    simp only [isValidH, heven, decide_eq_true_eq]
    omega
  · obtain ⟨k, hk⟩ := ho
    subst hk
    have hx : (2 * k + 1) ^^^ 1 = 2 * k := by
      have h1 := Nat.xor_bit true k true 0
      simpa [Nat.bit_val] using h1
    refine ⟨by rw [hodd, hx], by rw [hodd, heven], by rw [hodd]; omega, ?_⟩
    simp only [isValidH, hodd, decide_eq_true_eq]
    omega

/-- Witness for C7: the single-triangle mesh has six half-edges; half-edge
`2` satisfies all four conclusions. -/
theorem c7_witness :
    Even (sizeHalfEdges triMesh) ∧ isValidH triMesh 2 = true ∧
    (getOpposite 2 = 2 ^^^ 1 ∧
     getOpposite (getOpposite 2) = 2 ∧
     getOpposite 2 ≠ 2 ∧
     isValidH triMesh (getOpposite 2) = true) :=
  ⟨by decide, by decide, c7_opposite triMesh 2 (by decide) (by decide)⟩

/-! ## C4: deleteVertex on a boundary vertex -/

/-- C4 (code bug).  On the single triangle every vertex is a boundary
vertex, the `FaceAroundVertex` snapshot of `deleteVertex` collects the
sentinel face index of the boundary half-edge, and the subsequent
`deleteFace` call on the sentinel trips its `isValid` assertion (an
out-of-range access when assertions are compiled out): the embedding
evaluates to the error outcome instead of deleting the incident face. -/
theorem c4_deleteVertex_boundary :
    triO = some (triMesh, some 0) ∧
    isDeletedV triMesh 0 = some false ∧
    isBoundaryV triMesh 0 = some true ∧
    favWalk triMesh 5 5 7 = some [none, some 0] ∧
    deleteVertex triMesh 0 = none := by
  refine ⟨by decide, by decide, by decide, by decide, by decide⟩

/-! ## C1: a failing addFace leaves the mesh unchanged -/

/-- The fast path never returns the invalid face index: when it succeeds
it returns the index produced by `connectFace`. -/
theorem addFaceIsolated_some_index (m : Mesh VD HED ED FD) (vs : List Nat)
    (fd : FD) (ed : ED) (hed : HED) (mq : Mesh VD HED ED FD) (r : Option Nat)
    (h : addFaceIsolated m vs fd ed hed = some (mq, r)) : ∃ k, r = some k := by
  unfold addFaceIsolated at h
  split at h
  split at h
  · exact absurd h (by simp)
  · split at h
    · exact absurd h (by simp)
    · rename_i m3 f hcf
      obtain ⟨h1, h2⟩ := Prod.mk.injEq .. ▸ Option.some.inj h
      exact ⟨f, h2.symm⟩

/-- The general path returns the invalid face index only from the two
pre-flight check loops, both of which run before any mutation: the mesh
component of such a result is the input mesh. -/
theorem addFaceGeneral_invalid_unchanged (m : Mesh VD HED ED FD) (vs : List Nat)
    (fd : FD) (ed : ED) (hed : HED) (mq : Mesh VD HED ED FD)
    (h : addFaceGeneral m vs fd ed hed = some (mq, none)) : mq = m := by
  unfold addFaceGeneral at h
  split at h
  · exact absurd h (by simp)
  · obtain ⟨h1, h2⟩ := Prod.mk.injEq .. ▸ Option.some.inj h
    exact h1.symm
  · split at h
    · exact absurd h (by simp)
    · obtain ⟨h1, h2⟩ := Prod.mk.injEq .. ▸ Option.some.inj h
      exact h1.symm
    · split at h
      · exact absurd h (by simp)
      · split at h
        · exact absurd h (by simp)
        · split at h
          · exact absurd h (by simp)
          · split at h
            · exact absurd h (by simp)
            · rename_i hcf
              obtain ⟨h1, h2⟩ := Prod.mk.injEq .. ▸ Option.some.inj h
              exact absurd h2.symm (by simp)

/-- C1.  Whenever `addFaceImplBase` returns the invalid face index (too
few vertices, an invalid or duplicate vertex, an occupied slot, a
manifold-policy violation or a non-reparable fan), the returned mesh is
exactly the input mesh: every element sequence and payload sequence is
unchanged. -/
theorem c1_addFace_failure_unchanged (m : Mesh VD HED ED FD) (vs : List Nat)
    (fd : FD) (ed : ED) (hed : HED) (mq : Mesh VD HED ED FD)
    (h : addFaceImplBase m vs fd ed hed = some (mq, none)) : mq = m := by
  unfold addFaceImplBase at h
  split at h
  · obtain ⟨h1, _⟩ := Prod.mk.injEq .. ▸ Option.some.inj h
    exact h1.symm
  · split at h
    · obtain ⟨h1, _⟩ := Prod.mk.injEq .. ▸ Option.some.inj h
      exact h1.symm
    · split at h
      · obtain ⟨h1, _⟩ := Prod.mk.injEq .. ▸ Option.some.inj h
        exact h1.symm
      · split at h
        · exact absurd h (by simp)
        · split at h
          · obtain ⟨k, hk⟩ := addFaceIsolated_some_index _ _ _ _ _ _ _ h
            exact absurd hk (by simp)
          · exact addFaceGeneral_invalid_unchanged _ _ _ _ _ _ h

/-- Witness for C1: on the single triangle, `addFace [0, 0, 1]` is
rejected for its duplicate vertex and the mesh is returned unchanged. -/
theorem c1_witness : triMesh = triMesh :=
  c1_addFace_failure_unchanged triMesh [0, 0, 1] () () () triMesh (by decide)

/-! ## C3: the manifold-policy rejection conditions -/

/-- `mapO` succeeds when every element read succeeds. -/
theorem mapO_total {α β : Type} (f : α → Option β) (l : List α)
    (h : ∀ a ∈ l, (f a).isSome) : ∃ l2, mapO f l = some l2 := by
  induction l with
  | nil => exact ⟨[], rfl⟩
  | cons a t ih =>
    obtain ⟨b, hb⟩ := Option.isSome_iff_exists.mp (h a (List.mem_cons_self a t))
    obtain ⟨l2, hl2⟩ := ih (fun x hx => h x (List.mem_cons_of_mem a hx))
    exact ⟨b :: l2, by simp [mapO, hb, hl2]⟩

/-- Every element of a successful `mapO` input is mapped to a member of
the output. -/
theorem mapO_mem {α β : Type} (f : α → Option β) (l : List α) (l2 : List β)
    (h : mapO f l = some l2) : ∀ a ∈ l, ∃ b ∈ l2, f a = some b := by
  induction l generalizing l2 with
  | nil => intro a ha; exact absurd ha (List.not_mem_nil a)
  | cons a t ih =>
    intro x hx
    unfold mapO at h
    rcases hfa : f a with _ | b
    · rw [hfa] at h; exact absurd h (by simp)
    · rw [hfa] at h
      rcases hmt : mapO f t with _ | l3
      · rw [hmt] at h; exact absurd h (by simp)
      · rw [hmt] at h
        obtain rfl : b :: l3 = l2 := Option.some.inj h
        rcases List.mem_cons.mp hx with rfl | hxt
        · exact ⟨b, List.mem_cons_self b l3, hfa⟩
        · obtain ⟨c, hc, hfc⟩ := ih l3 hmt x hxt
          exact ⟨c, List.mem_cons_of_mem b hc, hfc⟩

/-- Every member of a list is the first component of a member of its zip
with an equally long list. -/
theorem mem_zip_left {α β : Type} (l : List α) (l2 : List β) (v : α)
    (hlen : l2.length = l.length) (hv : v ∈ l) :
    ∃ w, (v, w) ∈ l.zip l2 := by
  obtain ⟨i, hi, hg⟩ := List.getElem_of_mem hv
  have hi2 : i < l2.length := by omega
  refine ⟨l2[i], ?_⟩
  have hiz : i < (l.zip l2).length := by
    simp [List.length_zip]
    omega
  have hz : (l.zip l2).get ⟨i, hiz⟩ = (l[i], l2[i]) := List.getElem_zip ..
  have hmem := List.getElem_mem (l := l.zip l2) (n := i) (h := hiz)
  have hget : (l.zip l2).get ⟨i, hiz⟩ ∈ l.zip l2 := hmem
  rw [hz, hg] at hget
  exact hget

/-- `checkTopology1` (manifold policy) succeeds on a valid vertex whose
boundary status is readable. -/
theorem checkTopology1M_total (m : Mesh VD HED ED FD) (a b : Nat)
    (hval : isValidV m a = true)
    (hread : isIsolated m a = some false → ∃ bb, isBoundaryV m a = some bb) :
    (checkTopology1M m a b).isSome := by
  have hvl : a < m.vertices.length := by
    simpa [isValidV] using hval
  have hx : vertexAt m a = some m.vertices[a] := by
    simp [vertexAt, List.get?_eq_getElem?, hvl]
  unfold checkTopology1M
  rcases hni : m.vertices[a].outgoing with _ | hh
  · have hiso : isIsolated m a = some true := by
      simp [isIsolated, hx, hni]
    rw [hiso]
    simp
  · have hiso : isIsolated m a = some false := by
      simp [isIsolated, hx, hni]
    rw [hiso]
    obtain ⟨bb, hbb⟩ := hread hiso
    have hbb2 : isBoundaryH m hh = some bb := by
      simpa [isBoundaryV, hx, hni] using hbb
    have hhe : ∃ he, halfEdgeAt m hh = some he := by
      unfold isBoundaryH at hbb2
      rcases h2 : halfEdgeAt m hh with _ | he
      · rw [h2] at hbb2; exact absurd hbb2 (by simp)
      · exact ⟨he, rfl⟩
    obtain ⟨he, hhe⟩ := hhe
    cases bb <;> simp [hx, hni, hbb2, hhe]

/-- The `checkTopology1` loop rejects as soon as one pair rejects,
provided no earlier pair errors. -/
theorem checkTop1Loop_reject (m : Mesh VD HED ED FD)
    (pairs : List (Nat × Nat))
    (htot : ∀ p ∈ pairs, (checkTopology1 m p.1 p.2).isSome)
    (hbad : ∃ p ∈ pairs, ∃ he isNew, checkTopology1 m p.1 p.2 = some (false, he, isNew)) :
    checkTop1Loop m pairs = some none := by
  induction pairs with
  | nil => obtain ⟨p, hp, _⟩ := hbad; exact absurd hp (List.not_mem_nil p)
  | cons p t ih =>
    obtain ⟨ok, he, isNew, hchk⟩ : ∃ ok he isNew, checkTopology1 m p.1 p.2 = some (ok, he, isNew) := by
      obtain ⟨r, hr⟩ := Option.isSome_iff_exists.mp (htot p (List.mem_cons_self p t))
      exact ⟨r.1, r.2.1, r.2.2, by simpa using hr⟩
    unfold checkTop1Loop
    rw [hchk]
    cases ok
    · simp
    · simp only [if_true]
      obtain ⟨q, hq, he2, isNew2, hchk2⟩ := hbad
      rcases List.mem_cons.mp hq with rfl | hqt
      · rw [hchk] at hchk2
        exact absurd (congrArg (fun r => (Option.map Prod.fst r)) hchk2) (by simp)
      · have := ih (fun x hx => htot x (List.mem_cons_of_mem p hx)) ⟨q, hqt, he2, isNew2, hchk2⟩
        rw [this]

/-- The `checkTopology2` loop rejects as soon as one corner rejects,
provided the isolation reads succeed and no earlier corner errors. -/
theorem checkTop2Loop_reject (m : Mesh VD HED ED FD)
    (l : List (((Option Nat × Bool) × (Option Nat × Bool)) × Nat))
    (htot : ∀ t ∈ l, (isIsolated m t.2).isSome ∧
      ∀ isoB, (checkTopology2 m t.1.1.1 t.1.2.1 t.1.1.2 t.1.2.2 isoB).isSome)
    (hbad : ∃ t ∈ l, ∃ isoB, isIsolated m t.2 = some isoB ∧
      checkTopology2 m t.1.1.1 t.1.2.1 t.1.1.2 t.1.2.2 isoB = some none) :
    checkTop2Loop m l = some none := by
  induction l with
  | nil => obtain ⟨t, ht, _⟩ := hbad; exact absurd ht (List.not_mem_nil t)
  | cons t r ih =>
    rcases t with ⟨⟨⟨heAb, isNewAb⟩, ⟨heBc, isNewBc⟩⟩, vb⟩
    obtain ⟨h1, h2⟩ := htot _ (List.mem_cons_self _ r)
    simp only [] at h1 h2
    obtain ⟨isoB, hiso⟩ := Option.isSome_iff_exists.mp h1
    obtain ⟨res, hres⟩ := Option.isSome_iff_exists.mp (h2 isoB)
    unfold checkTop2Loop
    simp only [hiso, hres]
    rcases res with _ | entry
    · simp
    · simp only []
      obtain ⟨q, hq, isoB2, hiso2, hchk2⟩ := hbad
      rcases List.mem_cons.mp hq with rfl | hqt
      · simp only [] at hiso2 hchk2
        rw [hiso] at hiso2
        obtain rfl := Option.some.inj hiso2
        rw [hres] at hchk2
        exact absurd (Option.some.inj hchk2) (by simp)
      · have := ih (fun x hx => htot x (List.mem_cons_of_mem _ hx)) ⟨q, hqt, isoB2, hiso2, hchk2⟩
        rw [this]

/-- A valid vertex index always supports the isolation read. -/
theorem isIsolated_isSome_of_valid (m : Mesh VD HED ED FD) (v : Nat)
    (hval : isValidV m v = true) : (isIsolated m v).isSome := by
  have hvl : v < m.vertices.length := by simpa [isValidV] using hval
  simp [isIsolated, vertexAt, List.get?_eq_getElem?, hvl]

/-- `checkTopology1` (manifold policy) rejects a non-isolated vertex whose
outgoing half-edge is not boundary. -/
theorem checkTopology1M_reject (m : Mesh VD HED ED FD) (a b : Nat)
    (hiso : isIsolated m a = some false) (hbv : isBoundaryV m a = some false) :
    ∃ hh, checkTopology1M m a b = some (false, some hh, true) := by
  obtain ⟨x, hx⟩ : ∃ x, vertexAt m a = some x := by
    unfold isIsolated at hiso
    rcases h2 : vertexAt m a with _ | x
    · rw [h2] at hiso; exact absurd hiso (by simp)
    · exact ⟨x, rfl⟩
  obtain ⟨hh, hout⟩ : ∃ hh, x.outgoing = some hh := by
    have : x.outgoing.isNone = false := by
      simpa [isIsolated, hx] using hiso
    exact Option.isSome_iff_exists.mp (by simp [Option.isSome_iff_ne_none]; intro hc; simp [hc] at this)
  have hbh : isBoundaryH m hh = some false := by
    simpa [isBoundaryV, hx, hout] using hbv
  refine ⟨hh, ?_⟩
  unfold checkTopology1M
  rw [hiso, hx]
  simp [hout, hbh]

/-- C3.  In the manifold policy `addFace` rejects (returning the invalid
index, with the mesh unchanged by C1) whenever (a) some input vertex is
non-isolated with a non-boundary outgoing half-edge, or (b) two adjacent
edge slots would both be newly created while the shared vertex is not
isolated. -/
theorem c3_manifold_policy_rejection :
    (∀ (m : Mesh VD HED ED FD) (vs : List Nat) (fd : FD) (ed : ED) (hed : HED),
      m.manifold = true →
      (∀ v ∈ vs, isValidV m v = true) →
      (∀ v ∈ vs, isIsolated m v = some false → ∃ bb, isBoundaryV m v = some bb) →
      (∃ v ∈ vs, isIsolated m v = some false ∧ isBoundaryV m v = some false) →
      addFaceImplBase m vs fd ed hed = some (m, none)) ∧
    (∀ (m : Mesh VD HED ED FD) (vs : List Nat) (fd : FD) (ed : ED) (hed : HED)
       (flags1 : List (Option Nat × Bool)),
      m.manifold = true →
      (∀ v ∈ vs, isValidV m v = true) →
      checkTop1Loop m (vs.zip (vs.rotate 1)) = some (some flags1) →
      (∃ t ∈ (flags1.zip (flags1.rotate 1)).zip (vs.rotate 1),
        t.1.1.2 = true ∧ t.1.2.2 = true ∧ isIsolated m t.2 = some false) →
      addFaceImplBase m vs fd ed hed = some (m, none)) := by
  have hgenA : ∀ (m : Mesh VD HED ED FD) (vs : List Nat) (fd : FD) (ed : ED) (hed : HED),
      m.manifold = true →
      (∀ v ∈ vs, isValidV m v = true) →
      (∀ v ∈ vs, isIsolated m v = some false → ∃ bb, isBoundaryV m v = some bb) →
      (∃ v ∈ vs, isIsolated m v = some false ∧ isBoundaryV m v = some false) →
      addFaceGeneral m vs fd ed hed = some (m, none) := by
    intro m vs fd ed hed hm hval hread hbad
    unfold addFaceGeneral
    have hloop : checkTop1Loop m (vs.zip (vs.rotate 1)) = some none := by
      apply checkTop1Loop_reject
      · intro p hp
        obtain ⟨p1, p2⟩ := p
        have hp1 : p1 ∈ vs := (List.mem_zip hp).1
        unfold checkTopology1
        rw [hm]
        simp only [if_true]
        exact checkTopology1M_total m p1 p2 (hval _ hp1) (hread _ hp1)
      · obtain ⟨v, hv, hiso, hbv⟩ := hbad
        obtain ⟨w, hw⟩ := mem_zip_left vs (vs.rotate 1) v (by simp) hv
        obtain ⟨hh, hchk⟩ := checkTopology1M_reject m v w hiso hbv
        refine ⟨(v, w), hw, some hh, true, ?_⟩
        unfold checkTopology1
        rw [hm]
        simpa using hchk
    simp only [hloop]
  constructor
  · intro m vs fd ed hed hm hval hread hbad
    unfold addFaceImplBase
    by_cases h3 : vs.length < 3
    · rw [if_pos h3]
    · rw [if_neg h3]
      have hany : (vs.any fun v => !isValidV m v) = false := by
        simp only [List.any_eq_false]
        intro v hv
        simp [hval v hv]
      rw [if_neg (by simp [hany])]
      by_cases hnd : vs.Nodup
      · rw [if_neg (by simp [hnd])]
        obtain ⟨flags, hflags⟩ := mapO_total (isIsolated m) vs
          (fun v hv => isIsolated_isSome_of_valid m v (hval v hv))
        simp only [hflags]
        obtain ⟨v, hv, hiso, hbv⟩ := hbad
        obtain ⟨bflag, hbm, hbeq⟩ := mapO_mem _ _ _ hflags v hv
        have hbfalse : bflag = false := by
          rw [hiso] at hbeq
          exact (Option.some.inj hbeq).symm
        have hall : flags.all id = false := by
          rcases hall2 : flags.all id with _ | _
          · rfl
          · exact absurd ((List.all_eq_true.mp hall2) bflag hbm) (by simp [hbfalse])
        rw [hall]
        simp only [Bool.false_eq_true, if_false]
        exact hgenA m vs fd ed hed hm hval hread ⟨v, hv, hiso, hbv⟩
      · rw [if_pos (by simp [hnd])]
  · intro m vs fd ed hed flags1 hm hval hflags hbad
    have hniso : ∃ v ∈ vs, isIsolated m v = some false := by
      obtain ⟨t, ht, _, _, hiso⟩ := hbad
      obtain ⟨t1, t2⟩ := t
      have ht2 : t2 ∈ vs.rotate 1 := (List.mem_zip ht).2
      exact ⟨t2, (List.mem_rotate).mp ht2, hiso⟩
    unfold addFaceImplBase
    by_cases h3 : vs.length < 3
    · rw [if_pos h3]
    · rw [if_neg h3]
      have hany : (vs.any fun v => !isValidV m v) = false := by
        simp only [List.any_eq_false]
        intro v hv
        simp [hval v hv]
      rw [if_neg (by simp [hany])]
      by_cases hnd : vs.Nodup
      · rw [if_neg (by simp [hnd])]
        obtain ⟨flags, hflagsm⟩ := mapO_total (isIsolated m) vs
          (fun v hv => isIsolated_isSome_of_valid m v (hval v hv))
        simp only [hflagsm]
        obtain ⟨v, hv, hiso⟩ := hniso
        obtain ⟨bflag, hbm, hbeq⟩ := mapO_mem _ _ _ hflagsm v hv
        have hbfalse : bflag = false := by
          rw [hiso] at hbeq
          exact (Option.some.inj hbeq).symm
        have hall : flags.all id = false := by
          rcases hall2 : flags.all id with _ | _
          · rfl
          · exact absurd ((List.all_eq_true.mp hall2) bflag hbm) (by simp [hbfalse])
        rw [hall]
        simp only [Bool.false_eq_true, if_false]
        unfold addFaceGeneral
        simp only [hflags]
        have h2loop : checkTop2Loop m ((flags1.zip (flags1.rotate 1)).zip (vs.rotate 1)) = some none := by
          apply checkTop2Loop_reject
          · intro t ht
            obtain ⟨t1, t2⟩ := t
            have ht2 : t2 ∈ vs.rotate 1 := (List.mem_zip ht).2
            refine ⟨isIsolated_isSome_of_valid m t2 (hval _ ((List.mem_rotate).mp ht2)), ?_⟩
            intro isoB
            unfold checkTopology2
            rw [hm]
            simp only [if_true]
            split
            · simp
            · simp
          · obtain ⟨t, ht, hnew1, hnew2, hiso2⟩ := hbad
            refine ⟨t, ht, false, hiso2, ?_⟩
            unfold checkTopology2
            rw [hm]
            simp [hnew1, hnew2]
        simp only [h2loop]
      · rw [if_pos (by simp [hnd])]

/-- Witness for C3: (a) adding a face through the interior vertex `0` of
the umbrella is rejected; (b) on two disjoint triangles plus an isolated
vertex, the face `[0, 3, 6]` needs two new edges at the non-isolated
vertex `3` and is rejected. -/
theorem c3_witness :
    addFaceImplBase umbrella [0, 1, 2] () () () = some (umbrella, none) ∧
    addFaceImplBase twoSep [0, 3, 6] () () () = some (twoSep, none) :=
  ⟨c3_manifold_policy_rejection.1 umbrella [0, 1, 2] () () ()
      (by decide) (by decide) (by decide)
      ⟨0, by decide, by decide, by decide⟩,
   c3_manifold_policy_rejection.2 twoSep [0, 3, 6] () () ()
      [(some 5, true), (some 11, true), (none, true)]
      (by decide) (by decide) (by decide)
      ⟨(((some 5, true), (some 11, true)), 3), by decide, by decide, by decide, by decide⟩⟩

/-! ## C2: addFace on isolated vertices (the fast path) -/

/-- Every element of a successful `mapO` output comes from an input
element. -/
theorem mapO_mem_rev {α β : Type} (f : α → Option β) (l : List α) (l2 : List β)
    (h : mapO f l = some l2) : ∀ b ∈ l2, ∃ a ∈ l, f a = some b := by
  induction l generalizing l2 with
  | nil =>
    intro b hb
    rw [← Option.some.inj h] at hb
    exact absurd hb (List.not_mem_nil b)
  | cons a t ih =>
    unfold mapO at h
    rcases hfa : f a with _ | b0
    · rw [hfa] at h; exact absurd h (by simp)
    · rw [hfa] at h
      rcases hmt : mapO f t with _ | l3
      · rw [hmt] at h; exact absurd h (by simp)
      · rw [hmt] at h
        obtain rfl := Option.some.inj h
        intro b hb
        rcases List.mem_cons.mp hb with rfl | hbt
        · exact ⟨a, List.mem_cons_self a t, hfa⟩
        · obtain ⟨c, hc, hfc⟩ := ih l3 hmt b hbt
          exact ⟨c, List.mem_cons_of_mem a hc, hfc⟩

/-- `setNext` succeeds on an in-range index and only rewires half-edge
links. -/
theorem setNext_spec (m : Mesh VD HED ED FD) (h : Nat) (o : Option Nat)
    (hlt : h < m.halfEdges.length) :
    ∃ m2, setNext m h o = some m2 ∧ m2.vertices = m.vertices ∧
      m2.faces = m.faces ∧ m2.halfEdges.length = m.halfEdges.length ∧
      m2.manifold = m.manifold ∧ m2.fData = m.fData := by
  have hg : m.halfEdges.get? h = some (m.halfEdges.get ⟨h, hlt⟩) := List.get?_eq_get hlt
  unfold setNext
  rw [hg]
  exact ⟨_, rfl, rfl, rfl, by simp, rfl, rfl⟩

/-- `setPrev` succeeds on an in-range index and only rewires half-edge
links. -/
theorem setPrev_spec (m : Mesh VD HED ED FD) (h : Nat) (o : Option Nat)
    (hlt : h < m.halfEdges.length) :
    ∃ m2, setPrev m h o = some m2 ∧ m2.vertices = m.vertices ∧
      m2.faces = m.faces ∧ m2.halfEdges.length = m.halfEdges.length ∧
      m2.manifold = m.manifold ∧ m2.fData = m.fData := by
  have hg : m.halfEdges.get? h = some (m.halfEdges.get ⟨h, hlt⟩) := List.get?_eq_get hlt
  unfold setPrev
  rw [hg]
  exact ⟨_, rfl, rfl, rfl, by simp, rfl, rfl⟩

/-- `connectPrevNext` succeeds on in-range indices and only rewires
half-edge links. -/
theorem connectPrevNext_spec (m : Mesh VD HED ED FD) (ab bc : Nat)
    (hab : ab < m.halfEdges.length) (hbc : bc < m.halfEdges.length) :
    ∃ m2, connectPrevNext m ab bc = some m2 ∧ m2.vertices = m.vertices ∧
      m2.faces = m.faces ∧ m2.halfEdges.length = m.halfEdges.length ∧
      m2.manifold = m.manifold ∧ m2.fData = m.fData := by
  obtain ⟨m1, he1, hv1, hf1, hl1, hm1, hd1⟩ := setNext_spec m ab (some bc) hab
  obtain ⟨m2, he2, hv2, hf2, hl2, hm2, hd2⟩ := setPrev_spec m1 bc (some ab) (by omega)
  refine ⟨m2, ?_, by rw [hv2, hv1], by rw [hf2, hf1], by rw [hl2, hl1],
    by rw [hm2, hm1], by rw [hd2, hd1]⟩
  unfold connectPrevNext
  simp only [he1, he2]

/-- `setOutgoing` succeeds on an in-range vertex; it touches only that
vertex and leaves every other sequence unchanged. -/
theorem setOutgoing_spec (m : Mesh VD HED ED FD) (v : Nat) (o : Option Nat)
    (hlt : v < m.vertices.length) :
    ∃ m2, setOutgoing m v o = some m2 ∧
      m2.vertices.length = m.vertices.length ∧
      (∀ w, w ≠ v → vertexAt m2 w = vertexAt m w) ∧
      m2.halfEdges = m.halfEdges ∧ m2.faces = m.faces ∧
      m2.manifold = m.manifold ∧ m2.fData = m.fData := by
  have hg : m.vertices.get? v = some (m.vertices.get ⟨v, hlt⟩) := List.get?_eq_get hlt
  unfold setOutgoing
  rw [hg]
  refine ⟨_, rfl, by simp, ?_, rfl, rfl, rfl, rfl⟩
  intro w hw
  simp only [vertexAt]
  exact List.get?_set_ne _ _ (fun hc => hw hc.symm)

/-- The characterisation of the fast-path edge-allocation loop: vertices,
faces and policy are untouched, the half-edge count grows by two per
pair, and the collected indices are fresh pair heads. -/
theorem addEdgeLoop_spec (hed : HED) (ed : ED) :
    ∀ (ps : List (Nat × Nat)) (m : Mesh VD HED ED FD),
      (addEdgeLoop m hed ed ps).1.vertices = m.vertices ∧
      (addEdgeLoop m hed ed ps).1.faces = m.faces ∧
      (addEdgeLoop m hed ed ps).1.manifold = m.manifold ∧
      (addEdgeLoop m hed ed ps).1.fData = m.fData ∧
      (addEdgeLoop m hed ed ps).1.halfEdges.length
        = m.halfEdges.length + 2 * ps.length ∧
      (addEdgeLoop m hed ed ps).2.length = ps.length ∧
      (∀ x ∈ (addEdgeLoop m hed ed ps).2,
        m.halfEdges.length ≤ x ∧ x + 2 ≤ m.halfEdges.length + 2 * ps.length) := by
  intro ps
  induction ps with
  | nil =>
    intro m
    refine ⟨rfl, rfl, rfl, rfl, by simp [addEdgeLoop], by simp [addEdgeLoop], ?_⟩
    intro x hx
    exact absurd hx (by simp [addEdgeLoop])
  | cons p t ih =>
    intro m
    obtain ⟨hv, hf, hman, hfd, hlen, hilen, hmem⟩ := ih (addEdge m p.1 p.2 hed ed).1
    have haddlen : (addEdge m p.1 p.2 hed ed).1.halfEdges.length
        = m.halfEdges.length + 2 := by
      simp [addEdge]
    refine ⟨?_, ?_, ?_, ?_, ?_, ?_, ?_⟩
    · simpa [addEdgeLoop, addEdge] using hv
    · simpa [addEdgeLoop, addEdge] using hf
    · simpa [addEdgeLoop, addEdge] using hman
    · simpa [addEdgeLoop, addEdge] using hfd
    · show (addEdgeLoop (addEdge m p.1 p.2 hed ed).1 hed ed t).1.halfEdges.length = _
      rw [hlen, haddlen]
      simp
      omega
    · show ((addEdge m p.1 p.2 hed ed).2 :: (addEdgeLoop (addEdge m p.1 p.2 hed ed).1 hed ed t).2).length = t.length + 1
      simp [hilen]
    · intro x hx
      rcases List.mem_cons.mp hx with rfl | hxt
      · have hx2 : (addEdge m p.1 p.2 hed ed).2 = m.halfEdges.length := rfl
        rw [hx2]
        simp [List.length_cons]
      · obtain ⟨h1, h2⟩ := hmem x hxt
        rw [haddlen] at h1 h2
        constructor
        · omega
        · simp [List.length_cons]
          omega

/-- `connectNewNew` succeeds in either policy on an isolated shared
vertex with in-range half-edges; it only rewires half-edges and the
shared vertex. -/
theorem connectNewNew_ok (m : Mesh VD HED ED FD) (ab bc vb : Nat)
    (hab : ab < m.halfEdges.length) (hbc : bc < m.halfEdges.length)
    (hoab : getOpposite ab < m.halfEdges.length)
    (hobc : getOpposite bc < m.halfEdges.length)
    (hvb : vb < m.vertices.length) (hiso : isIsolated m vb = some true) :
    ∃ m2, connectNewNew m ab bc vb = some m2 ∧
      m2.vertices.length = m.vertices.length ∧
      (∀ w, w ≠ vb → vertexAt m2 w = vertexAt m w) ∧
      m2.halfEdges.length = m.halfEdges.length ∧
      m2.faces = m.faces ∧ m2.manifold = m.manifold ∧ m2.fData = m.fData := by
  have hM : ∃ m2, connectNewNewM m ab bc vb = some m2 ∧
      m2.vertices.length = m.vertices.length ∧
      (∀ w, w ≠ vb → vertexAt m2 w = vertexAt m w) ∧
      m2.halfEdges.length = m.halfEdges.length ∧
      m2.faces = m.faces ∧ m2.manifold = m.manifold ∧ m2.fData = m.fData := by
    obtain ⟨m1, he1, hv1, hf1, hl1, hm1, hd1⟩ := connectPrevNext_spec m ab bc hab hbc
    obtain ⟨m2, he2, hv2, hf2, hl2, hm2, hd2⟩ :=
      connectPrevNext_spec m1 (getOpposite bc) (getOpposite ab) (by omega) (by omega)
    obtain ⟨m3, he3, hl3, hw3, hh3, hf3, hm3, hd3⟩ :=
      setOutgoing_spec m2 vb (some (getOpposite ab)) (by rw [hv2, hv1]; exact hvb)
    refine ⟨m3, ?_, ?_, ?_, ?_, ?_, ?_, ?_⟩
    · unfold connectNewNewM
      simp only [he1, he2, he3]
    · rw [hl3, hv2, hv1]
    · intro w hw
      rw [hw3 w hw]
      unfold vertexAt
      rw [hv2, hv1]
    · rw [congrArg List.length hh3, hl2, hl1]
    · rw [hf3, hf2, hf1]
    · rw [hm3, hm2, hm1]
    · rw [hd3, hd2, hd1]
  obtain ⟨m2, hcm, h1, h2, h3, h4, h5, h6⟩ := hM
  refine ⟨m2, ?_, h1, h2, h3, h4, h5, h6⟩
  unfold connectNewNew
  by_cases hman : m.manifold = true
  · rw [if_pos hman]
    exact hcm
  · rw [if_neg hman]
    unfold connectNewNewNM
    rw [hiso]
    exact hcm

/-- The fast-path connect loop succeeds when all half-edges are in range
and the shared vertices are distinct, in range and isolated; it preserves
all element counts, the faces and the policy. -/
theorem connectLoopNewNew_ok :
    ∀ (l : List ((Nat × Nat) × Nat)) (m : Mesh VD HED ED FD),
      (∀ t ∈ l, t.1.1 < m.halfEdges.length ∧ t.1.2 < m.halfEdges.length ∧
        getOpposite t.1.1 < m.halfEdges.length ∧
        getOpposite t.1.2 < m.halfEdges.length) →
      (∀ t ∈ l, t.2 < m.vertices.length ∧ isIsolated m t.2 = some true) →
      (l.map Prod.snd).Nodup →
      ∃ m2, connectLoopNewNew m l = some m2 ∧
        m2.vertices.length = m.vertices.length ∧
        m2.halfEdges.length = m.halfEdges.length ∧
        m2.faces = m.faces ∧ m2.manifold = m.manifold ∧ m2.fData = m.fData := by
  intro l
  induction l with
  | nil =>
    intro m _ _ _
    exact ⟨m, rfl, rfl, rfl, rfl, rfl, rfl⟩
  | cons t r ih =>
    intro m hb hv hnd
    obtain ⟨hab, hbc, hoab, hobc⟩ := hb t (List.mem_cons_self t r)
    obtain ⟨hvb, hiso⟩ := hv t (List.mem_cons_self t r)
    obtain ⟨m1, hcm, hl1, hw1, hh1, hf1, hm1, hd1⟩ :=
      connectNewNew_ok m t.1.1 t.1.2 t.2 hab hbc hoab hobc hvb hiso
    rw [List.map_cons] at hnd
    obtain ⟨hhead, hndr⟩ := List.nodup_cons.mp hnd
    have hne : ∀ u ∈ r, u.2 ≠ t.2 := by
      intro u hu hc
      exact hhead (hc ▸ List.mem_map_of_mem Prod.snd hu)
    obtain ⟨m2, hcm2, hl2, hh2, hf2, hm2, hd2⟩ := ih m1
      (fun u hu => by
        obtain ⟨a, b, c, d⟩ := hb u (List.mem_cons_of_mem t hu)
        exact ⟨by omega, by omega, by omega, by omega⟩)
      (fun u hu => by
        obtain ⟨a, b⟩ := hv u (List.mem_cons_of_mem t hu)
        refine ⟨by omega, ?_⟩
        unfold isIsolated
        rw [hw1 u.2 (hne u hu)]
        exact b)
      hndr
    refine ⟨m2, ?_, by omega, by omega, by rw [hf2, hf1], by rw [hm2, hm1],
      by rw [hd2, hd1]⟩
    rcases t with ⟨⟨ab, bc⟩, vb⟩
    unfold connectLoopNewNew
    simp only [hcm, hcm2]

/-- `setFaceOf` succeeds on an in-range index and only changes half-edge
face references. -/
theorem setFaceOf_spec (m : Mesh VD HED ED FD) (h : Nat) (o : Option Nat)
    (hlt : h < m.halfEdges.length) :
    ∃ m2, setFaceOf m h o = some m2 ∧ m2.vertices = m.vertices ∧
      m2.faces = m.faces ∧ m2.halfEdges.length = m.halfEdges.length ∧
      m2.manifold = m.manifold ∧ m2.fData = m.fData := by
  have hg : m.halfEdges.get? h = some (m.halfEdges.get ⟨h, hlt⟩) := List.get?_eq_get hlt
  unfold setFaceOf
  rw [hg]
  exact ⟨_, rfl, rfl, rfl, by simp, rfl, rfl⟩

/-- The `setFaceIndex` loop of `connectFace` succeeds on in-range
half-edges, preserving everything except face references. -/
theorem setFaceLoop_spec :
    ∀ (l : List Nat) (m : Mesh VD HED ED FD) (idx : Nat),
      (∀ h ∈ l, h < m.halfEdges.length) →
      ∃ m2, setFaceLoop m idx l = some m2 ∧ m2.vertices = m.vertices ∧
        m2.faces = m.faces ∧ m2.halfEdges.length = m.halfEdges.length ∧
        m2.manifold = m.manifold ∧ m2.fData = m.fData := by
  intro l
  induction l with
  | nil =>
    intro m idx _
    exact ⟨m, rfl, rfl, rfl, rfl, rfl, rfl⟩
  | cons h r ih =>
    intro m idx hb
    obtain ⟨m1, he1, hv1, hf1, hl1, hm1, hd1⟩ :=
      setFaceOf_spec m h (some idx) (hb h (List.mem_cons_self h r))
    obtain ⟨m2, he2, hv2, hf2, hl2, hm2, hd2⟩ := ih m1 idx
      (fun x hx => by have := hb x (List.mem_cons_of_mem h hx); omega)
    refine ⟨m2, ?_, by rw [hv2, hv1], by rw [hf2, hf1], by omega,
      by rw [hm2, hm1], by rw [hd2, hd1]⟩
    unfold setFaceLoop
    simp only [he1, he2]

/-- `connectFace` succeeds on a nonempty list of in-range half-edges: it
returns the old face count as the new index, growing the face sequence
and payload by one. -/
theorem connectFace_spec (m : Mesh VD HED ED FD) (innerHe : List Nat) (fd : FD)
    (hne : innerHe ≠ []) (hb : ∀ h ∈ innerHe, h < m.halfEdges.length) :
    ∃ m2, connectFace m innerHe fd = some (m2, m.faces.length) ∧
      m2.vertices = m.vertices ∧
      m2.faces.length = m.faces.length + 1 ∧
      m2.halfEdges.length = m.halfEdges.length ∧
      m2.manifold = m.manifold ∧
      m2.fData = m.fData ++ [fd] := by
  obtain ⟨last, hlast⟩ := Option.isSome_iff_exists.mp (List.getLast?_isSome.mpr hne)
  obtain ⟨m2, he2, hv2, hf2, hl2, hm2, hd2⟩ := setFaceLoop_spec innerHe
    { m with faces := m.faces ++ [⟨some last⟩], fData := m.fData ++ [fd] }
    m.faces.length (by simpa using hb)
  refine ⟨m2, ?_, by simpa using hv2, by simp [hf2], by simpa using hl2,
    by simpa using hm2, by simpa using hd2⟩
  unfold connectFace
  rw [hlast]
  simp only [he2]

/-- The opposite index differs from its argument by exactly one. -/
theorem getOpposite_le_succ (x : Nat) : getOpposite x ≤ x + 1 := by
  unfold getOpposite
  split <;> omega

/-- C2.  `addFace` on at least three valid, pairwise distinct, isolated
vertices succeeds through the fast path: it returns the old face count as
a valid new index, the face count grows by one, the half-edge count by
`2 n` (the edge count by `n`), and the vertex count is unchanged. -/
theorem c2_addFace_isolated (m : Mesh VD HED ED FD) (vs : List Nat)
    (fd : FD) (ed : ED) (hed : HED)
    (h3 : 3 ≤ vs.length)
    (hval : ∀ v ∈ vs, isValidV m v = true)
    (hnd : vs.Nodup)
    (hiso : ∀ v ∈ vs, isIsolated m v = some true) :
    ∃ m2, addFaceImplBase m vs fd ed hed = some (m2, some (sizeFaces m)) ∧
      isValidF m2 (sizeFaces m) = true ∧
      sizeFaces m2 = sizeFaces m + 1 ∧
      sizeHalfEdges m2 = sizeHalfEdges m + 2 * vs.length ∧
      sizeEdges m2 = sizeEdges m + vs.length ∧
      sizeVertices m2 = sizeVertices m := by
  obtain ⟨flags, hflags⟩ := mapO_total (isIsolated m) vs
    (fun v hv => by simp [hiso v hv])
  have hall : flags.all id = true := by
    apply List.all_eq_true.mpr
    intro b hb
    obtain ⟨a, ha, hfa⟩ := mapO_mem_rev _ _ _ hflags b hb
    rw [hiso a ha] at hfa
    simpa using (Option.some.inj hfa).symm
  have hrun : addFaceImplBase m vs fd ed hed = addFaceIsolated m vs fd ed hed := by
    unfold addFaceImplBase
    rw [if_neg (by omega)]
    have hany : (vs.any fun v => !isValidV m v) = false := by
      simp only [List.any_eq_false]
      intro v hv
      simp [hval v hv]
    rw [if_neg (by simp [hany])]
    rw [if_neg (by simp [hnd])]
    simp only [hflags, hall, if_true]
  -- the edge-allocation loop
  obtain ⟨hv1, hf1, hm1, hd1, hl1, hil, hihe⟩ :=
    addEdgeLoop_spec hed ed (vs.zip (vs.rotate 1)) m
  rcases hael : addEdgeLoop m hed ed (vs.zip (vs.rotate 1)) with ⟨m1, ihe⟩
  rw [hael] at hv1 hf1 hm1 hd1 hl1 hil hihe
  simp only [] at hv1 hf1 hm1 hd1 hl1 hil hihe
  have hplen : (vs.zip (vs.rotate 1)).length = vs.length := by simp
  rw [hplen] at hl1 hil
  -- the connect loop
  have hihelen : ∀ x ∈ ihe, m.halfEdges.length ≤ x ∧
      x + 2 ≤ m.halfEdges.length + 2 * vs.length := by
    intro x hx
    have := hihe x hx
    omega
  obtain ⟨m2c, hcl, hl2, hh2, hf2, hm2, hd2⟩ :=
    connectLoopNewNew_ok ((ihe.zip (ihe.rotate 1)).zip (vs.rotate 1)) m1
      (by
        intro t ht
        have ht1 := (List.mem_zip ht).1
        have hta : t.1.1 ∈ ihe := by
          rcases t with ⟨⟨a, b⟩, c⟩
          exact (List.mem_zip ht1).1
        have htb : t.1.2 ∈ ihe := by
          rcases t with ⟨⟨a, b⟩, c⟩
          exact (List.mem_rotate).mp (List.mem_zip ht1).2
        obtain ⟨ha1, ha2⟩ := hihelen _ hta
        obtain ⟨hb1, hb2⟩ := hihelen _ htb
        have hoa := getOpposite_le_succ t.1.1
        have hob := getOpposite_le_succ t.1.2
        refine ⟨by omega, by omega, by omega, by omega⟩)
      (by
        intro t ht
        have ht2 : t.2 ∈ vs := by
          rcases t with ⟨⟨a, b⟩, c⟩
          exact (List.mem_rotate).mp (List.mem_zip ht).2
        have hvv : t.2 < m.vertices.length := by
          simpa [isValidV] using hval t.2 ht2
        refine ⟨by rw [hv1]; exact hvv, ?_⟩
        unfold isIsolated vertexAt
        rw [hv1]
        exact hiso t.2 ht2)
      (by
        have hmap : (((ihe.zip (ihe.rotate 1)).zip (vs.rotate 1)).map Prod.snd)
            = vs.rotate 1 := by
          apply List.map_snd_zip
          simp [hil]
        rw [hmap]
        exact ((List.rotate_perm vs 1).nodup_iff).mpr hnd)
  -- connectFace
  have hne : ihe ≠ [] := by
    intro hc
    rw [hc] at hil
    simp at hil
    omega
  obtain ⟨m3, hcf, hv3, hfl3, hl3, hm3, hd3⟩ := connectFace_spec m2c ihe fd hne
    (by
      intro x hx
      obtain ⟨h1, h2⟩ := hihelen x hx
      omega)
  have hfcount : m2c.faces.length = sizeFaces m := by
    rw [hf2, hf1]
    rfl
  refine ⟨m3, ?_, ?_, ?_, ?_, ?_, ?_⟩
  · rw [hrun]
    unfold addFaceIsolated
    rw [hael]
    simp only [hcl, hcf, hfcount]
  · have : m3.faces.length = sizeFaces m + 1 := by rw [hfl3, hfcount]
    simp only [isValidF, this, decide_eq_true_eq]
    omega
  · show m3.faces.length = sizeFaces m + 1
    rw [hfl3, hfcount]
  · show m3.halfEdges.length = sizeHalfEdges m + 2 * vs.length
    rw [hl3, hh2, hl1]
    rfl
  · show m3.halfEdges.length / 2 = sizeEdges m + vs.length
    rw [hl3, hh2, hl1]
    show (m.halfEdges.length + 2 * vs.length) / 2 = m.halfEdges.length / 2 + vs.length
    rw [Nat.add_mul_div_left _ _ (by norm_num : (0:Nat) < 2)]
  · show m3.vertices.length = sizeVertices m
    rw [hv3, hl2, hv1]
    rfl

/-- Witness for C2: adding the triangle `[0, 1, 2]` to three isolated
vertices. -/
theorem c2_witness :
    ∃ m2, addFaceImplBase (addVU (addVU (addVU meshU0))) [0, 1, 2] () () ()
        = some (m2, some (sizeFaces (addVU (addVU (addVU meshU0))))) ∧
      isValidF m2 (sizeFaces (addVU (addVU (addVU meshU0)))) = true ∧
      sizeFaces m2 = sizeFaces (addVU (addVU (addVU meshU0))) + 1 ∧
      sizeHalfEdges m2 = sizeHalfEdges (addVU (addVU (addVU meshU0))) + 2 * 3 ∧
      sizeEdges m2 = sizeEdges (addVU (addVU (addVU meshU0))) + 3 ∧
      sizeVertices m2 = sizeVertices (addVU (addVU (addVU meshU0))) :=
  c2_addFace_isolated (addVU (addVU (addVU meshU0))) [0, 1, 2] () () ()
    (by decide) (by decide) (by decide) (by decide)

/-! ## C6: isManifold at a vertex -/

/-- The tail of the outgoing fan of a vertex: the half-edges visited by
the outgoing circulator after the starting one, in rotation order, until
the walk returns to the start. -/
def outOrbitAux (m : Mesh VD HED ED FD) (start cur : Nat) :
    Nat → Option (List Nat)
  | 0 => none
  | fuel + 1 =>
    match outStep m cur with
    | none => none
    | some nx =>
      if nx == start then some []
      else
        match outOrbitAux m start nx fuel with
        | none => none
        | some l => some (nx :: l)

/-- The outgoing fan (star) of a vertex: the cycle of outgoing half-edges
reached from `outgoing_half_edge (v)` by the circulator rotation. -/
def outOrbit (m : Mesh VD HED ED FD) (v : Nat) : Option (List Nat) :=
  match vertexAt m v with
  | none => none
  | some x =>
    match x.outgoing with
    | none => none
    | some h0 =>
      match outOrbitAux m h0 h0 (m.halfEdges.length + 1) with
      | none => none
      | some l => some (h0 :: l)

/-- The do-while of the non-manifold `isManifold` computes the negated
boundary test over the remaining fan. -/
theorem manifoldLoop_spec (m : Mesh VD HED ED FD) (start : Nat) :
    ∀ (fuel : Nat) (cur : Nat) (rest2 : List Nat),
      outOrbitAux m start cur fuel = some rest2 →
      (∀ h ∈ cur :: rest2, ∃ b, isBoundaryH m h = some b) →
      manifoldLoop m start cur (fuel + 1)
        = some (!(cur :: rest2).any (fun h => isBoundaryH m h == some true)) := by
  intro fuel
  induction fuel with
  | zero =>
    intro cur rest2 haux
    exact absurd haux (by simp [outOrbitAux])
  | succ f ih =>
    intro cur rest2 haux hreads
    obtain ⟨b, hb⟩ := hreads cur (List.mem_cons_self cur rest2)
    unfold outOrbitAux at haux
    rcases hstep : outStep m cur with _ | nx
    · rw [hstep] at haux
      exact absurd haux (by simp)
    · simp only [hstep] at haux
      by_cases hnx : nx = start
      · rw [if_pos (by simpa using hnx)] at haux
        obtain rfl : ([] : List Nat) = rest2 := Option.some.inj haux
        unfold manifoldLoop
        simp only [hb]
        cases b
        · simp only [hstep]
          rw [if_pos (by simpa using hnx)]
          simp [hb]
        · simp [hb]
      · rw [if_neg (by simpa using hnx)] at haux
        rcases haux2 : outOrbitAux m start nx f with _ | rest3
        · rw [haux2] at haux
          exact absurd haux (by simp)
        · rw [haux2] at haux
          obtain rfl := Option.some.inj haux
          have hloop := ih nx rest3 haux2
            (fun h hh => hreads h (List.mem_cons_of_mem cur hh))
          unfold manifoldLoop
          simp only [hb]
          cases b
          · simp only [hstep]
            rw [if_neg (by simpa using hnx)]
            rw [hloop]
            simp [hb]
          · simp [hb]

/-- C6.  In the manifold policy `isManifold (v)` is true for every valid
vertex; in the non-manifold policy, for a non-isolated vertex whose
outgoing fan is the cycle `h0 :: rest` (with at least two outgoing
half-edges, and with the maintained invariant that the outgoing half-edge
is boundary whenever any fan half-edge is), `isManifold (v)` is true iff
at most one half-edge of the fan is boundary. -/
theorem c6_isManifold :
    (∀ (m : Mesh VD HED ED FD) (v : Nat), m.manifold = true →
      isValidV m v = true → isManifoldV m v = some true) ∧
    (∀ (m : Mesh VD HED ED FD) (v h0 : Nat) (rest : List Nat),
      m.manifold = false →
      outOrbit m v = some (h0 :: rest) →
      rest ≠ [] →
      (∀ h ∈ h0 :: rest, ∃ b, isBoundaryH m h = some b) →
      ((∃ h ∈ rest, isBoundaryH m h = some true) → isBoundaryH m h0 = some true) →
      (isManifoldV m v = some true ↔
        (h0 :: rest).countP (fun h => isBoundaryH m h == some true) ≤ 1)) := by
  constructor
  · intro m v hm hv
    unfold isManifoldV
    rw [hv]
    simp [hm]
  · intro m v h0 rest hm horb hrest hreads hprio
    obtain ⟨x, hx, hout, l, haux, hlrest⟩ : ∃ x, vertexAt m v = some x ∧
        x.outgoing = some h0 ∧ ∃ l,
        outOrbitAux m h0 h0 (m.halfEdges.length + 1) = some l ∧ rest = l := by
      unfold outOrbit at horb
      rcases h1 : vertexAt m v with _ | x
      · rw [h1] at horb; exact absurd horb (by simp)
      · simp only [h1] at horb
        rcases h2 : x.outgoing with _ | hh
        · rw [h2] at horb; exact absurd horb (by simp)
        · simp only [h2] at horb
          rcases h3 : outOrbitAux m hh hh (m.halfEdges.length + 1) with _ | l
          · rw [h3] at horb; exact absurd horb (by simp)
          · simp only [h3] at horb
            obtain heq := Option.some.inj horb
            obtain ⟨hhh, hll⟩ : hh = h0 ∧ l = rest := by
              have := List.cons.injEq .. ▸ heq
              exact ⟨this.1, this.2⟩
            rw [hhh] at h2 h3
            exact ⟨x, rfl, h2, l, h3, hll.symm⟩
    subst hlrest
    have hvv : isValidV m v = true := by
      simp only [isValidV, decide_eq_true_eq]
      have := hx
      unfold vertexAt at this
      exact (List.get?_eq_some.mp this).1
    have hnm : isManifoldV m v = isManifoldNM m v := by
      unfold isManifoldV
      rw [hvv, hm]
      simp
    obtain ⟨b0, hb0⟩ := hreads h0 (List.mem_cons_self h0 rest)
    cases b0
    · -- outgoing not boundary: the code answers true immediately
      have hres : isManifoldNM m v = some true := by
        unfold isManifoldNM
        simp only [hx, hout, hb0]
      have hnone : ∀ h ∈ rest, ¬(isBoundaryH m h = some true) := by
        intro h hh hc
        have := hprio ⟨h, hh, hc⟩
        rw [hb0] at this
        exact absurd (Option.some.inj this) (by simp)
      have hcount : (h0 :: rest).countP (fun h => isBoundaryH m h == some true) = 0 := by
        apply List.countP_eq_zero.mpr
        intro h hh
        rcases List.mem_cons.mp hh with rfl | hht
        · simp [hb0]
        · simp only [beq_iff_eq]
          simpa using hnone h hht
      rw [hnm, hres, hcount]
      simp
    · -- outgoing boundary: the loop scans the rest of the fan
      obtain ⟨h1, rest2, rfl, hstep0, haux2⟩ : ∃ h1 rest2, rest = h1 :: rest2 ∧
          outStep m h0 = some h1 ∧
          outOrbitAux m h0 h1 (m.halfEdges.length) = some rest2 := by
        unfold outOrbitAux at haux
        rcases hs : outStep m h0 with _ | nx
        · rw [hs] at haux; exact absurd haux (by simp)
        · simp only [hs] at haux
          by_cases hnx : nx = h0
          · rw [if_pos (by simpa using hnx)] at haux
            obtain rfl : ([] : List Nat) = rest := Option.some.inj haux
            exact absurd rfl hrest
          · rw [if_neg (by simpa using hnx)] at haux
            rcases h4 : outOrbitAux m h0 nx m.halfEdges.length with _ | r3
            · rw [h4] at haux; exact absurd haux (by simp)
            · rw [h4] at haux
              obtain rfl := Option.some.inj haux
              exact ⟨nx, r3, rfl, rfl, h4⟩
      have hloop := manifoldLoop_spec m h0 m.halfEdges.length h1 rest2 haux2
        (fun h hh => hreads h (List.mem_cons_of_mem h0 hh))
      have hres : isManifoldNM m v
          = some (!(h1 :: rest2).any (fun h => isBoundaryH m h == some true)) := by
        unfold isManifoldNM
        simp only [hx, hout, hb0, hstep0]
        exact hloop
      rw [hnm, hres]
      have hcount : (h0 :: h1 :: rest2).countP (fun h => isBoundaryH m h == some true)
          = 1 + (h1 :: rest2).countP (fun h => isBoundaryH m h == some true) := by
        rw [List.countP_cons]
        simp [hb0]
        omega
      rw [hcount]
      constructor
      · intro hsome
        have hany : (h1 :: rest2).any (fun h => isBoundaryH m h == some true) = false := by
          have := Option.some.inj hsome
          rcases h5 : (h1 :: rest2).any (fun h => isBoundaryH m h == some true) with _ | _
          · rfl
          · rw [h5] at this; exact absurd this (by simp)
        have : (h1 :: rest2).countP (fun h => isBoundaryH m h == some true) = 0 := by
          apply List.countP_eq_zero.mpr
          intro h hh
          have := List.any_eq_false.mp hany h hh
          simpa using this
        omega
      · intro hle
        have hzero : (h1 :: rest2).countP (fun h => isBoundaryH m h == some true) = 0 := by
          omega
        have : (h1 :: rest2).any (fun h => isBoundaryH m h == some true) = false := by
          apply List.any_eq_false.mpr
          intro h hh
          have := List.countP_eq_zero.mp hzero h hh
          simpa using this
        rw [this]
        rfl

/-- Witness for C6: the manifold-policy clause on the triangle, and the
non-manifold clause on the bowtie centre, whose fan `[5, 6, 11, 0]` has
two boundary half-edges (`isManifold` answers false there). -/
theorem c6_witness :
    isManifoldV triMesh 0 = some true ∧
    (isManifoldV bowtie 0 = some true ↔
      ([5, 6, 11, 0] : List Nat).countP
        (fun h => isBoundaryH bowtie h == some true) ≤ 1) :=
  ⟨c6_isManifold.1 triMesh 0 (by decide) (by decide),
   c6_isManifold.2 bowtie 0 5 [6, 11, 0] (by decide) (by decide) (by decide)
     (by decide) (by decide)⟩

/-! ## C8: idempotence of the deletion operations -/

/-- The frame of the deletion path: element counts are preserved and the
face records are untouched (deletions never reallocate). -/
def framePres (m m2 : Mesh VD HED ED FD) : Prop :=
  m2.vertices.length = m.vertices.length ∧
  m2.halfEdges.length = m.halfEdges.length ∧
  m2.faces = m.faces

theorem framePres_refl (m : Mesh VD HED ED FD) : framePres m m := ⟨rfl, rfl, rfl⟩

theorem framePres_trans {m m2 m3 : Mesh VD HED ED FD}
    (h1 : framePres m m2) (h2 : framePres m2 m3) : framePres m m3 :=
  ⟨h2.1.trans h1.1, h2.2.1.trans h1.2.1, h2.2.2.trans h1.2.2⟩

theorem setNext_framePres {m m2 : Mesh VD HED ED FD} {h : Nat} {o : Option Nat}
    (hs : setNext m h o = some m2) : framePres m m2 := by
  unfold setNext at hs
  split at hs
  · exact absurd hs (by simp)
  · obtain rfl := Option.some.inj hs
    exact ⟨rfl, by simp, rfl⟩

theorem setPrev_framePres {m m2 : Mesh VD HED ED FD} {h : Nat} {o : Option Nat}
    (hs : setPrev m h o = some m2) : framePres m m2 := by
  unfold setPrev at hs
  split at hs
  · exact absurd hs (by simp)
  · obtain rfl := Option.some.inj hs
    exact ⟨rfl, by simp, rfl⟩

theorem setFaceOf_framePres {m m2 : Mesh VD HED ED FD} {h : Nat} {o : Option Nat}
    (hs : setFaceOf m h o = some m2) : framePres m m2 := by
  unfold setFaceOf at hs
  split at hs
  · exact absurd hs (by simp)
  · obtain rfl := Option.some.inj hs
    exact ⟨rfl, by simp, rfl⟩

theorem markDeletedH_framePres {m m2 : Mesh VD HED ED FD} {h : Nat}
    (hs : markDeletedH m h = some m2) : framePres m m2 := by
  unfold markDeletedH at hs
  split at hs
  · exact absurd hs (by simp)
  · obtain rfl := Option.some.inj hs
    exact ⟨rfl, by simp, rfl⟩

theorem setOutgoing_framePres {m m2 : Mesh VD HED ED FD} {v : Nat} {o : Option Nat}
    (hs : setOutgoing m v o = some m2) : framePres m m2 := by
  unfold setOutgoing at hs
  split at hs
  · exact absurd hs (by simp)
  · obtain rfl := Option.some.inj hs
    exact ⟨by simp, rfl, rfl⟩

theorem markDeletedV_framePres {m m2 : Mesh VD HED ED FD} {v : Nat}
    (hs : markDeletedV m v = some m2) : framePres m m2 :=
  setOutgoing_framePres hs

theorem connectPrevNext_framePres {m m2 : Mesh VD HED ED FD} {ab bc : Nat}
    (hs : connectPrevNext m ab bc = some m2) : framePres m m2 := by
  unfold connectPrevNext at hs
  rcases h1 : setNext m ab (some bc) with _ | m1
  · rw [h1] at hs; exact absurd hs (by simp)
  · rw [h1] at hs
    exact framePres_trans (setNext_framePres h1) (setPrev_framePres hs)

theorem reconnectNBNB_framePres {m m2 : Mesh VD HED ED FD} {bc cb vb : Nat}
    {st st2 : List Nat}
    (hs : reconnectNBNB m bc cb vb st = some (m2, st2)) : framePres m m2 := by
  unfold reconnectNBNB at hs
  split at hs
  · rcases h1 : isBoundaryV m vb with _ | b
    · rw [h1] at hs; exact absurd hs (by simp)
    · rw [h1] at hs
      cases b
      · rcases h2 : setOutgoing m vb (some bc) with _ | m1
        · rw [h2] at hs; exact absurd hs (by simp)
        · rw [h2] at hs
          obtain heq := Option.some.inj hs
          obtain rfl : m1 = m2 := congrArg Prod.fst heq
          exact setOutgoing_framePres h2
      · rcases h2 : collectNB m cb st (m.halfEdges.length + 1) with _ | st1
        · rw [h2] at hs; exact absurd hs (by simp)
        · rw [h2] at hs
          obtain heq := Option.some.inj hs
          obtain rfl : m = m2 := congrArg Prod.fst heq
          exact framePres_refl m
  · rcases h1 : isBoundaryV m vb with _ | b
    · rw [h1] at hs; exact absurd hs (by simp)
    · rw [h1] at hs
      cases b
      · rcases h2 : setOutgoing m vb (some bc) with _ | m1
        · rw [h2] at hs; exact absurd hs (by simp)
        · rw [h2] at hs
          obtain heq := Option.some.inj hs
          obtain rfl : m1 = m2 := congrArg Prod.fst heq
          exact setOutgoing_framePres h2
      · obtain heq := Option.some.inj hs
        obtain rfl : m = m2 := congrArg Prod.fst heq
        exact framePres_refl m

theorem reconnect_framePres {m m2 : Mesh VD HED ED FD} {ab bc : Nat}
    {bBa bCb : Bool} {st st2 : List Nat}
    (hs : reconnect m ab bc bBa bCb st = some (m2, st2)) : framePres m m2 := by
  unfold reconnect at hs
  rcases h1 : halfEdgeAt m ab with _ | heAb
  · rw [h1] at hs; exact absurd hs (by simp)
  simp only [h1] at hs
  by_cases hc1 : (bBa && bCb) = true
  · rw [if_pos hc1] at hs
    rcases h2 : halfEdgeAt m (getOpposite bc) with _ | heCb
    · rw [h2] at hs; exact absurd hs (by simp)
    simp only [h2] at hs
    rcases h3 : heCb.nxt with _ | cbNext
    · rw [h3] at hs; exact absurd hs (by simp)
    simp only [h3] at hs
    by_cases hc2 : (cbNext == getOpposite ab) = true
    · rw [if_pos hc2] at hs
      rcases h4 : heAb.term with _ | vb
      · rw [h4] at hs; exact absurd hs (by simp)
      simp only [h4] at hs
      rcases h5 : markDeletedV m vb with _ | ma
      · rw [h5] at hs; exact absurd hs (by simp)
      simp only [h5] at hs
      rcases h6 : markDeletedH ma ab with _ | mb
      · rw [h6] at hs; exact absurd hs (by simp)
      simp only [h6] at hs
      rcases h7 : markDeletedH mb (getOpposite ab) with _ | mc
      · rw [h7] at hs; exact absurd hs (by simp)
      simp only [h7] at hs
      obtain heq := Option.some.inj hs
      obtain rfl : mc = m2 := congrArg Prod.fst heq
      exact framePres_trans (markDeletedV_framePres h5)
        (framePres_trans (markDeletedH_framePres h6) (markDeletedH_framePres h7))
    · rw [if_neg hc2] at hs
      rcases h4 : halfEdgeAt m (getOpposite ab) with _ | heBa
      · rw [h4] at hs; exact absurd hs (by simp)
      simp only [h4] at hs
      rcases h5 : heBa.prv with _ | baPrev
      · rw [h5] at hs; exact absurd hs (by simp)
      simp only [h5] at hs
      rcases h6 : connectPrevNext m baPrev cbNext with _ | ma
      · rw [h6] at hs; exact absurd hs (by simp)
      simp only [h6] at hs
      rcases h7 : heAb.term with _ | vb
      · rw [h7] at hs; exact absurd hs (by simp)
      simp only [h7] at hs
      rcases h8 : setOutgoing ma vb (some cbNext) with _ | mb
      · rw [h8] at hs; exact absurd hs (by simp)
      simp only [h8] at hs
      rcases h9 : markDeletedH mb ab with _ | mc
      · rw [h9] at hs; exact absurd hs (by simp)
      simp only [h9] at hs
      rcases h10 : markDeletedH mc (getOpposite ab) with _ | md
      · rw [h10] at hs; exact absurd hs (by simp)
      simp only [h10] at hs
      obtain heq := Option.some.inj hs
      obtain rfl : md = m2 := congrArg Prod.fst heq
      exact framePres_trans (connectPrevNext_framePres h6)
        (framePres_trans (setOutgoing_framePres h8)
          (framePres_trans (markDeletedH_framePres h9) (markDeletedH_framePres h10)))
  · rw [if_neg hc1] at hs
    by_cases hc2 : (bBa && !bCb) = true
    · rw [if_pos hc2] at hs
      rcases h2 : halfEdgeAt m (getOpposite ab) with _ | heBa
      · rw [h2] at hs; exact absurd hs (by simp)
      simp only [h2] at hs
      rcases h3 : heBa.prv with _ | baPrev
      · rw [h3] at hs; exact absurd hs (by simp)
      simp only [h3] at hs
      rcases h4 : connectPrevNext m baPrev bc with _ | ma
      · rw [h4] at hs; exact absurd hs (by simp)
      simp only [h4] at hs
      rcases h5 : heAb.term with _ | vb
      · rw [h5] at hs; exact absurd hs (by simp)
      simp only [h5] at hs
      rcases h6 : setOutgoing ma vb (some bc) with _ | mb
      · rw [h6] at hs; exact absurd hs (by simp)
      simp only [h6] at hs
      rcases h7 : markDeletedH mb ab with _ | mc
      · rw [h7] at hs; exact absurd hs (by simp)
      simp only [h7] at hs
      rcases h8 : markDeletedH mc (getOpposite ab) with _ | md
      · rw [h8] at hs; exact absurd hs (by simp)
      simp only [h8] at hs
      obtain heq := Option.some.inj hs
      obtain rfl : md = m2 := congrArg Prod.fst heq
      exact framePres_trans (connectPrevNext_framePres h4)
        (framePres_trans (setOutgoing_framePres h6)
          (framePres_trans (markDeletedH_framePres h7) (markDeletedH_framePres h8)))
    · rw [if_neg hc2] at hs
      by_cases hc3 : (!bBa && bCb) = true
      · rw [if_pos hc3] at hs
        rcases h2 : halfEdgeAt m (getOpposite bc) with _ | heCb
        · rw [h2] at hs; exact absurd hs (by simp)
        simp only [h2] at hs
        rcases h3 : heCb.nxt with _ | cbNext
        · rw [h3] at hs; exact absurd hs (by simp)
        simp only [h3] at hs
        rcases h4 : connectPrevNext m ab cbNext with _ | ma
        · rw [h4] at hs; exact absurd hs (by simp)
        simp only [h4] at hs
        rcases h5 : heAb.term with _ | vb
        · rw [h5] at hs; exact absurd hs (by simp)
        simp only [h5] at hs
        rcases h6 : setOutgoing ma vb (some cbNext) with _ | mb
        · rw [h6] at hs; exact absurd hs (by simp)
        simp only [h6] at hs
        obtain heq := Option.some.inj hs
        obtain rfl : mb = m2 := congrArg Prod.fst heq
        exact framePres_trans (connectPrevNext_framePres h4) (setOutgoing_framePres h6)
      · rw [if_neg hc3] at hs
        rcases h2 : heAb.term with _ | vb
        · rw [h2] at hs; exact absurd hs (by simp)
        simp only [h2] at hs
        exact reconnectNBNB_framePres hs

theorem reconnectLoop_framePres :
    ∀ (l : List ((Nat × Nat) × (Bool × Bool))) (m m2 : Mesh VD HED ED FD)
      (st st2 : List Nat),
      reconnectLoop m st l = some (m2, st2) → framePres m m2 := by
  intro l
  induction l with
  | nil =>
    intro m m2 st st2 hs
    unfold reconnectLoop at hs
    obtain heq := Option.some.inj hs
    obtain rfl : m = m2 := congrArg Prod.fst heq
    exact framePres_refl m
  | cons c r ih =>
    intro m m2 st st2 hs
    rcases c with ⟨⟨ab, bc⟩, bBa, bCb⟩
    unfold reconnectLoop at hs
    rcases h1 : reconnect m ab bc bBa bCb st with _ | p1
    · rw [h1] at hs; exact absurd hs (by simp)
    simp only [h1] at hs
    rcases p1 with ⟨ma, st1⟩
    rcases h2 : setFaceOf ma ab none with _ | mb
    · rw [h2] at hs; exact absurd hs (by simp)
    simp only [h2] at hs
    exact framePres_trans (reconnect_framePres h1)
      (framePres_trans (setFaceOf_framePres h2) (ih mb m2 st1 st2 hs))

/-- Face deletedness only depends on the face records. -/
theorem isDeletedF_congr {m m2 : Mesh VD HED ED FD} (h : m2.faces = m.faces)
    (g : Nat) : isDeletedF m2 g = isDeletedF m g := by
  unfold isDeletedF faceAt
  rw [h]

/-- `markDeleted (FaceIndex)` tombstones its argument, keeps the counts
and never revives a face. -/
theorem markDeletedF_spec {m m2 : Mesh VD HED ED FD} {g : Nat}
    (hs : markDeletedF m g = some m2) :
    m2.vertices = m.vertices ∧ m2.halfEdges = m.halfEdges ∧
    m2.faces.length = m.faces.length ∧
    isDeletedF m2 g = some true ∧
    (∀ gg, isDeletedF m gg = some true → isDeletedF m2 gg = some true) := by
  unfold markDeletedF at hs
  rcases h1 : m.faces.get? g with _ | x
  · rw [h1] at hs; exact absurd hs (by simp)
  · rw [h1] at hs
    obtain rfl := Option.some.inj hs
    have hlt : g < m.faces.length := (List.get?_eq_some.mp h1).1
    refine ⟨rfl, rfl, by simp, ?_, ?_⟩
    · simp only [isDeletedF, faceAt]
      rw [List.get?_eq_getElem?, List.getElem?_set_eq_of_lt _ hlt]
      simp
    · intro gg hgg
      by_cases hgeq : gg = g
      · subst hgeq
        simp only [isDeletedF, faceAt]
        rw [List.get?_eq_getElem?, List.getElem?_set_eq_of_lt _ hlt]
        simp
      · simp only [isDeletedF, faceAt] at hgg ⊢
        rw [List.get?_set_ne _ _ (fun hc => hgeq hc.symm)]
        exact hgg

/-- The non-manifold `deleteFace` preserves the element counts, never
revives a face, and tombstones its argument. -/
theorem deleteFaceNM_spec {m m2 : Mesh VD HED ED FD} {f : Nat}
    {st st2 : List Nat} (hs : deleteFaceNM m f st = some (m2, st2)) :
    m2.vertices.length = m.vertices.length ∧
    m2.halfEdges.length = m.halfEdges.length ∧
    m2.faces.length = m.faces.length ∧
    (∀ g, isDeletedF m g = some true → isDeletedF m2 g = some true) ∧
    isDeletedF m2 f = some true := by
  unfold deleteFaceNM at hs
  rcases h1 : isDeletedF m f with _ | b
  · rw [h1] at hs; exact absurd hs (by simp)
  simp only [h1] at hs
  cases b
  · rcases h2 : innerCycle m f with _ | ihe
    · rw [h2] at hs; exact absurd hs (by simp)
    simp only [h2] at hs
    split at hs
    · exact absurd hs (by simp)
    · rcases h3 : mapO (fun h => isBoundaryH m (getOpposite h)) ihe with _ | bnd
      · rw [h3] at hs; exact absurd hs (by simp)
      simp only [h3] at hs
      rcases h4 : reconnectLoop m st ((ihe.zip (ihe.rotate 1)).zip (bnd.zip (bnd.rotate 1))) with _ | p1
      · rw [h4] at hs; exact absurd hs (by simp)
      simp only [h4] at hs
      rcases p1 with ⟨ma, st1⟩
      rcases h5 : markDeletedF ma f with _ | mb
      · rw [h5] at hs; exact absurd hs (by simp)
      simp only [h5] at hs
      obtain heq := Option.some.inj hs
      obtain rfl : mb = m2 := congrArg Prod.fst heq
      obtain ⟨hfp1, hfp2, hfp3⟩ := reconnectLoop_framePres _ m ma st st1 h4
      obtain ⟨hv5, hh5, hf5, hdel5, hmono5⟩ := markDeletedF_spec h5
      refine ⟨?_, ?_, ?_, ?_, hdel5⟩
      · rw [congrArg List.length hv5]; exact hfp1
      · rw [congrArg List.length hh5]; exact hfp2
      · rw [hf5, congrArg List.length hfp3]
      · intro g hg
        apply hmono5
        rw [isDeletedF_congr hfp3]
        exact hg
  · obtain heq := Option.some.inj hs
    obtain rfl : m = m2 := congrArg Prod.fst heq
    exact ⟨rfl, rfl, rfl, fun g hg => hg, h1⟩

/-- The manifold deletion worklist preserves the element counts and never
revives a face. -/
theorem processStack_spec :
    ∀ (fuel : Nat) (stack : List Nat) (m m2 : Mesh VD HED ED FD),
      processStack m stack fuel = some m2 →
      m2.vertices.length = m.vertices.length ∧
      m2.halfEdges.length = m.halfEdges.length ∧
      m2.faces.length = m.faces.length ∧
      (∀ g, isDeletedF m g = some true → isDeletedF m2 g = some true) := by
  intro fuel
  induction fuel with
  | zero =>
    intro stack m m2 hs
    exact absurd hs (by simp [processStack])
  | succ fu ih =>
    intro stack m m2 hs
    unfold processStack at hs
    rcases stack with _ | ⟨f, rest⟩
    · obtain rfl := Option.some.inj hs
      exact ⟨rfl, rfl, rfl, fun g hg => hg⟩
    · simp only [] at hs
      rcases h1 : deleteFaceNM m f rest with _ | p1
      · rw [h1] at hs; exact absurd hs (by simp)
      simp only [h1] at hs
      rcases p1 with ⟨ma, st1⟩
      obtain ⟨ha1, ha2, ha3, ha4, _⟩ := deleteFaceNM_spec h1
      obtain ⟨hb1, hb2, hb3, hb4⟩ := ih st1 ma m2 hs
      exact ⟨hb1.trans ha1, hb2.trans ha2, hb3.trans ha3,
        fun g hg => hb4 g (ha4 g hg)⟩

/-- The public `deleteFace` preserves the element counts, tombstones its
argument and never revives a face. -/
theorem deleteFace_spec {m m2 : Mesh VD HED ED FD} {f : Nat}
    (hs : deleteFace m f = some m2) :
    m2.vertices.length = m.vertices.length ∧
    m2.halfEdges.length = m.halfEdges.length ∧
    m2.faces.length = m.faces.length ∧
    (∀ g, isDeletedF m g = some true → isDeletedF m2 g = some true) ∧
    isDeletedF m2 f = some true ∧
    isValidF m f = true := by
  unfold deleteFace at hs
  rcases hval : isValidF m f with _ | _
  · rw [hval] at hs
    exact absurd hs (by simp)
  · rw [hval] at hs
    simp only [Bool.not_true, Bool.false_eq_true, if_false] at hs
    rcases h1 : isDeletedF m f with _ | b
    · rw [h1] at hs; exact absurd hs (by simp)
    simp only [h1] at hs
    cases b
    · by_cases hman : m.manifold = true
      · rw [if_pos hman] at hs
        obtain ⟨fu, hfu⟩ : ∃ fu, delFuel m = fu + 1 := by
          refine ⟨(m.faces.length + 1) * (m.faces.length + m.halfEdges.length + 2) - 1, ?_⟩
          unfold delFuel
          have : 0 < (m.faces.length + 1) * (m.faces.length + m.halfEdges.length + 2) :=
            Nat.mul_pos (by omega) (by omega)
          omega
        rw [hfu] at hs
        unfold processStack at hs
        simp only [] at hs
        rcases h2 : deleteFaceNM m f [] with _ | p1
        · rw [h2] at hs; exact absurd hs (by simp)
        simp only [h2] at hs
        rcases p1 with ⟨ma, st1⟩
        obtain ⟨ha1, ha2, ha3, ha4, ha5⟩ := deleteFaceNM_spec h2
        obtain ⟨hb1, hb2, hb3, hb4⟩ := processStack_spec fu st1 ma m2 hs
        exact ⟨hb1.trans ha1, hb2.trans ha2, hb3.trans ha3,
          fun g hg => hb4 g (ha4 g hg), hb4 f ha5, rfl⟩
      · rw [if_neg hman] at hs
        rcases h2 : deleteFaceNM m f [] with _ | p1
        · rw [h2] at hs; exact absurd hs (by simp)
        simp only [h2] at hs
        rcases p1 with ⟨ma, st1⟩
        obtain rfl : ma = m2 := Option.some.inj hs
        obtain ⟨ha1, ha2, ha3, ha4, ha5⟩ := deleteFaceNM_spec h2
        exact ⟨ha1, ha2, ha3, ha4, ha5, rfl⟩
    · obtain rfl := Option.some.inj hs
      exact ⟨rfl, rfl, rfl, fun g hg => hg, h1, rfl⟩

/-- `deleteEdge` on a half-edge preserves the element counts; its
argument was valid. -/
theorem deleteEdgeH_pres {m m2 : Mesh VD HED ED FD} {h : Nat}
    (hs : deleteEdgeH m h = some m2) :
    m2.vertices.length = m.vertices.length ∧
    m2.halfEdges.length = m.halfEdges.length ∧
    m2.faces.length = m.faces.length ∧
    isValidH m h = true := by
  unfold deleteEdgeH at hs
  rcases hval : isValidH m h with _ | _
  · rw [hval] at hs; exact absurd hs (by simp)
  rw [hval] at hs
  simp only [Bool.not_true, Bool.false_eq_true, if_false] at hs
  rcases h1 : isDeletedH m h with _ | b
  · rw [h1] at hs; exact absurd hs (by simp)
  simp only [h1] at hs
  cases b
  · rcases h2 : isBoundaryH m h with _ | b1
    · rw [h2] at hs; exact absurd hs (by simp)
    simp only [h2] at hs
    have hstep1 : ∀ (m1 : Mesh VD HED ED FD),
        (if b1 then markDeletedH m h
         else match halfEdgeAt m h with
           | none => none
           | some he => match he.face with
             | none => none
             | some f => deleteFace m f) = some m1 →
        m1.vertices.length = m.vertices.length ∧
        m1.halfEdges.length = m.halfEdges.length ∧
        m1.faces.length = m.faces.length := by
      intro m1 hm1
      cases b1
      · simp only [Bool.false_eq_true, if_false] at hm1
        rcases h3 : halfEdgeAt m h with _ | he
        · rw [h3] at hm1; exact absurd hm1 (by simp)
        simp only [h3] at hm1
        rcases h4 : he.face with _ | ff
        · rw [h4] at hm1; exact absurd hm1 (by simp)
        simp only [h4] at hm1
        obtain ⟨p1, p2, p3, _⟩ := deleteFace_spec hm1
        exact ⟨p1, p2, p3⟩
      · simp only [if_true] at hm1
        obtain ⟨q1, q2, q3⟩ := markDeletedH_framePres hm1
        exact ⟨q1, q2, congrArg List.length q3⟩
    rcases h3 : (if b1 then markDeletedH m h
         else match halfEdgeAt m h with
           | none => none
           | some he => match he.face with
             | none => none
             | some f => deleteFace m f) with _ | m1
    · rw [h3] at hs; exact absurd hs (by simp)
    simp only [h3] at hs
    obtain ⟨p1, p2, p3⟩ := hstep1 m1 h3
    rcases h4 : isBoundaryH m1 (getOpposite h) with _ | b2
    · rw [h4] at hs; exact absurd hs (by simp)
    simp only [h4] at hs
    cases b2
    · simp only [Bool.false_eq_true, if_false] at hs
      rcases h5 : halfEdgeAt m1 (getOpposite h) with _ | he
      · rw [h5] at hs; exact absurd hs (by simp)
      simp only [h5] at hs
      rcases h6 : he.face with _ | ff
      · rw [h6] at hs; exact absurd hs (by simp)
      simp only [h6] at hs
      obtain ⟨q1, q2, q3, _⟩ := deleteFace_spec hs
      exact ⟨q1.trans p1, q2.trans p2, q3.trans p3, rfl⟩
    · simp only [if_true] at hs
      obtain ⟨q1, q2, q3⟩ := markDeletedH_framePres hs
      exact ⟨q1.trans p1, q2.trans p2, (congrArg List.length q3).trans p3, rfl⟩
  · obtain rfl := Option.some.inj hs
    exact ⟨rfl, rfl, rfl, rfl⟩

/-- `deleteEdge` on an edge index preserves the element counts; its
argument was valid. -/
theorem deleteEdgeE_pres {m m2 : Mesh VD HED ED FD} {e : Nat}
    (hs : deleteEdgeE m e = some m2) :
    m2.vertices.length = m.vertices.length ∧
    m2.halfEdges.length = m.halfEdges.length ∧
    m2.faces.length = m.faces.length ∧
    isValidE m e = true := by
  unfold deleteEdgeE at hs
  rcases hval : isValidE m e with _ | _
  · rw [hval] at hs; exact absurd hs (by simp)
  rw [hval] at hs
  simp only [Bool.not_true, Bool.false_eq_true, if_false] at hs
  rcases h1 : isDeletedE m e with _ | b
  · rw [h1] at hs; exact absurd hs (by simp)
  simp only [h1] at hs
  cases b
  · obtain ⟨p1, p2, p3, _⟩ := deleteEdgeH_pres hs
    exact ⟨p1, p2, p3, rfl⟩
  · obtain rfl := Option.some.inj hs
    exact ⟨rfl, rfl, rfl, rfl⟩

/-- The deletion loop of `deleteVertex` preserves the element counts. -/
theorem deleteFaceList_pres :
    ∀ (l : List (Option Nat)) (m m2 : Mesh VD HED ED FD),
      deleteFaceList m l = some m2 →
      m2.vertices.length = m.vertices.length ∧
      m2.halfEdges.length = m.halfEdges.length ∧
      m2.faces.length = m.faces.length := by
  intro l
  induction l with
  | nil =>
    intro m m2 hs
    obtain rfl : m = m2 := Option.some.inj hs
    exact ⟨rfl, rfl, rfl⟩
  | cons fo r ih =>
    intro m m2 hs
    rcases fo with _ | f
    · exact absurd hs (by simp [deleteFaceList])
    · unfold deleteFaceList at hs
      rcases h1 : deleteFace m f with _ | m1
      · rw [h1] at hs; exact absurd hs (by simp)
      simp only [h1] at hs
      obtain ⟨p1, p2, p3, _⟩ := deleteFace_spec h1
      obtain ⟨q1, q2, q3⟩ := ih m1 m2 hs
      exact ⟨q1.trans p1, q2.trans p2, q3.trans p3⟩

/-- `deleteVertex` preserves the element counts; its argument was valid. -/
theorem deleteVertex_pres {m m2 : Mesh VD HED ED FD} {v : Nat}
    (hs : deleteVertex m v = some m2) :
    m2.vertices.length = m.vertices.length ∧
    m2.halfEdges.length = m.halfEdges.length ∧
    m2.faces.length = m.faces.length ∧
    isValidV m v = true := by
  unfold deleteVertex at hs
  rcases hval : isValidV m v with _ | _
  · rw [hval] at hs; exact absurd hs (by simp)
  rw [hval] at hs
  simp only [Bool.not_true, Bool.false_eq_true, if_false] at hs
  rcases h1 : isDeletedV m v with _ | b
  · rw [h1] at hs; exact absurd hs (by simp)
  simp only [h1] at hs
  cases b
  · rcases h2 : vertexAt m v with _ | x
    · rw [h2] at hs; exact absurd hs (by simp)
    simp only [h2] at hs
    rcases h3 : x.outgoing with _ | h0
    · rw [h3] at hs; exact absurd hs (by simp)
    simp only [h3] at hs
    rcases h4 : favWalk m h0 h0 (m.halfEdges.length + 1) with _ | fi
    · rw [h4] at hs; exact absurd hs (by simp)
    simp only [h4] at hs
    obtain ⟨p1, p2, p3⟩ := deleteFaceList_pres fi m m2 hs
    exact ⟨p1, p2, p3, rfl⟩
  · obtain rfl := Option.some.inj hs
    exact ⟨rfl, rfl, rfl, rfl⟩

/-- C8.  Deleting twice equals deleting once.  For faces this is
unconditional: a successful `deleteFace` tombstones its argument, so the
second call returns through its deleted-guard without touching the mesh.
For half-edges, edges and vertices, the second call is a no-op whenever
the first call has tombstoned the element (which the deletion cascade
does on well-formed meshes; the witness evaluates this on concrete
meshes). -/
theorem c8_delete_idempotent :
    (∀ (m m2 : Mesh VD HED ED FD) (f : Nat),
      deleteFace m f = some m2 → deleteFace m2 f = some m2) ∧
    (∀ (m m2 : Mesh VD HED ED FD) (h : Nat),
      deleteEdgeH m h = some m2 → isDeletedH m2 h = some true →
      deleteEdgeH m2 h = some m2) ∧
    (∀ (m m2 : Mesh VD HED ED FD) (e : Nat),
      deleteEdgeE m e = some m2 → isDeletedE m2 e = some true →
      deleteEdgeE m2 e = some m2) ∧
    (∀ (m m2 : Mesh VD HED ED FD) (v : Nat),
      deleteVertex m v = some m2 → isDeletedV m2 v = some true →
      deleteVertex m2 v = some m2) := by
  refine ⟨?_, ?_, ?_, ?_⟩
  · intro m m2 f hs
    obtain ⟨h1, h2, h3, _, hdel, hval⟩ := deleteFace_spec hs
    have hval2 : isValidF m2 f = true := by
      simp only [isValidF, decide_eq_true_eq] at hval ⊢
      omega
    unfold deleteFace
    rw [hval2]
    simp only [Bool.not_true, Bool.false_eq_true, if_false, hdel]
  · intro m m2 h hs hdel
    obtain ⟨h1, h2, h3, hval⟩ := deleteEdgeH_pres hs
    have hval2 : isValidH m2 h = true := by
      simp only [isValidH, decide_eq_true_eq] at hval ⊢
      omega
    unfold deleteEdgeH
    rw [hval2]
    simp only [Bool.not_true, Bool.false_eq_true, if_false, hdel]
  · intro m m2 e hs hdel
    obtain ⟨h1, h2, h3, hval⟩ := deleteEdgeE_pres hs
    have hval2 : isValidE m2 e = true := by
      simp only [isValidE, decide_eq_true_eq] at hval ⊢
      omega
    unfold deleteEdgeE
    rw [hval2]
    simp only [Bool.not_true, Bool.false_eq_true, if_false, hdel]
  · intro m m2 v hs hdel
    obtain ⟨h1, h2, h3, hval⟩ := deleteVertex_pres hs
    have hval2 : isValidV m2 v = true := by
      simp only [isValidV, decide_eq_true_eq] at hval ⊢
      omega
    unfold deleteVertex
    rw [hval2]
    simp only [Bool.not_true, Bool.false_eq_true, if_false, hdel]

/-- The triangle after `deleteFace 0`. -/
def triDel : Mesh Unit Unit Unit Unit := (deleteFace triMesh 0).getD meshU0

/-- The triangle after `deleteEdge` on half-edge `0`. -/
def triEdgeDel : Mesh Unit Unit Unit Unit := (deleteEdgeH triMesh 0).getD meshU0

/-- The triangle after `deleteEdge` on edge `0`. -/
def triEdgeDelE : Mesh Unit Unit Unit Unit := (deleteEdgeE triMesh 0).getD meshU0

/-- The umbrella after `deleteVertex` on its interior centre `0`. -/
def umbDel : Mesh Unit Unit Unit Unit := (deleteVertex umbrella 0).getD meshU0

/-- Witness for C8: all four deletion forms, re-run on their own result,
return it unchanged. -/
theorem c8_witness :
    deleteFace triDel 0 = some triDel ∧
    deleteEdgeH triEdgeDel 0 = some triEdgeDel ∧
    deleteEdgeE triEdgeDelE 0 = some triEdgeDelE ∧
    deleteVertex umbDel 0 = some umbDel :=
  ⟨c8_delete_idempotent.1 triMesh triDel 0 (by decide),
   c8_delete_idempotent.2.1 triMesh triEdgeDel 0 (by decide) (by decide),
   c8_delete_idempotent.2.2.1 triMesh triEdgeDelE 0 (by decide) (by decide),
   c8_delete_idempotent.2.2.2 umbrella umbDel 0 (by decide) (by decide)⟩

/-! ## C5: cleanUp -/

/-- The remap table of `remove` has one entry per old element. -/
theorem removeElems_map_length {α : Type} (del : Nat → Bool) :
    ∀ (l : List α) (k cnt : Nat), (removeElems del l k cnt).2.length = l.length := by
  intro l
  induction l with
  | nil => intro k cnt; simp [removeElems]
  | cons e es ih =>
    intro k cnt
    unfold removeElems
    by_cases hd : del k
    · simp only [hd, if_true]
      simp [ih]
    · simp only [hd, Bool.false_eq_true, if_false]
      simp [ih]

/-- Every survivor of `remove` comes from a non-deleted old position. -/
theorem removeElems_mem {α : Type} (del : Nat → Bool) :
    ∀ (l : List α) (k cnt : Nat) (x : α), x ∈ (removeElems del l k cnt).1 →
      ∃ j, l.get? j = some x ∧ del (k + j) = false := by
  intro l
  induction l with
  | nil =>
    intro k cnt x hx
    exact absurd hx (by simp [removeElems])
  | cons e es ih =>
    intro k cnt x hx
    unfold removeElems at hx
    by_cases hd : del k
    · simp only [hd, if_true] at hx
      obtain ⟨j, hj, hdj⟩ := ih (k + 1) cnt x hx
      exact ⟨j + 1, by simpa using hj, by simpa [Nat.add_assoc, Nat.add_comm 1 j] using hdj⟩
    · simp only [hd, Bool.false_eq_true, if_false] at hx
      rcases List.mem_cons.mp hx with rfl | hxt
      · exact ⟨0, rfl, by simpa using hd⟩
      · obtain ⟨j, hj, hdj⟩ := ih (k + 1) (cnt + 1) x hxt
        exact ⟨j + 1, by simpa using hj, by simpa [Nat.add_assoc, Nat.add_comm 1 j] using hdj⟩

/-- A non-deleted old position is remapped to a fresh position below the
survivor count. -/
theorem removeElems_get {α : Type} (del : Nat → Bool) :
    ∀ (l : List α) (k cnt : Nat) (j : Nat), j < l.length → del (k + j) = false →
      ∃ q, (removeElems del l k cnt).2.get? j = some (some q) ∧
        cnt ≤ q ∧ q < cnt + (removeElems del l k cnt).1.length := by
  intro l
  induction l with
  | nil =>
    intro k cnt j hj _
    exact absurd hj (by simp)
  | cons e es ih =>
    intro k cnt j hj hdj
    unfold removeElems
    by_cases hd : del k
    · simp only [hd, if_true]
      rcases j with _ | j2
      · rw [Nat.add_zero] at hdj
        exact absurd hd (by simp [hdj])
      · have hj2 : j2 < es.length := by simpa using hj
        have hdj2 : del (k + 1 + j2) = false := by
          have : k + 1 + j2 = k + (j2 + 1) := by omega
          rw [this]
          exact hdj
        obtain ⟨q, hq, hq1, hq2⟩ := ih (k + 1) cnt j2 hj2 hdj2
        exact ⟨q, by simpa using hq, hq1, hq2⟩
    · simp only [hd, Bool.false_eq_true, if_false]
      rcases j with _ | j2
      · exact ⟨cnt, by simp, le_refl cnt, by simp⟩
      · have hj2 : j2 < es.length := by simpa using hj
        have hdj2 : del (k + 1 + j2) = false := by
          have : k + 1 + j2 = k + (j2 + 1) := by omega
          rw [this]
          exact hdj
        obtain ⟨q, hq, hq1, hq2⟩ := ih (k + 1) (cnt + 1) j2 hj2 hdj2
        refine ⟨q, by simpa using hq, by omega, ?_⟩
        simp only [List.length_cons]
        omega

/-- The payload compaction keeps exactly as many entries as the element
compaction keeps elements. -/
theorem removeData_length {α β : Type} (del : Nat → Bool) :
    ∀ (l : List α) (d : List β) (k cnt : Nat), d.length = l.length →
      (removeData del d k).length = (removeElems del l k cnt).1.length := by
  intro l
  induction l with
  | nil =>
    intro d k cnt hd
    obtain rfl : d = [] := List.length_eq_zero.mp hd
    simp [removeData, removeElems]
  | cons e es ih =>
    intro d k cnt hd
    rcases d with _ | ⟨d0, ds⟩
    · exact absurd hd (by simp)
    · have hds : ds.length = es.length := by simpa using hd
      unfold removeData removeElems
      by_cases hdel : del k
      · simp only [hdel, if_true]
        exact ih ds (k + 1) cnt hds
      · simp only [hdel, Bool.false_eq_true, if_false]
        simp [ih ds (k + 1) (cnt + 1) hds]

/-- `mapO` preserves the length. -/
theorem mapO_length {α β : Type} (f : α → Option β) :
    ∀ (l : List α) (l2 : List β), mapO f l = some l2 → l2.length = l.length := by
  intro l
  induction l with
  | nil =>
    intro l2 h
    rw [← Option.some.inj h]
    rfl
  | cons a t ih =>
    intro l2 h
    unfold mapO at h
    rcases h1 : f a with _ | b
    · rw [h1] at h; exact absurd h (by simp)
    rw [h1] at h
    rcases h2 : mapO f t with _ | l3
    · rw [h2] at h; exact absurd h (by simp)
    rw [h2] at h
    obtain rfl := Option.some.inj h
    simp [ih l3 h2]

/-- `listResize` produces the requested length. -/
theorem listResize_length {β : Type} (l : List β) (n : Nat) (fill : β) :
    (listResize l n fill).length = n := by
  unfold listResize
  split
  · simp
    omega
  · simp
    omega

/-- Reference closure of a mesh state: every index stored in a surviving
(non-tombstoned) element is in range and refers to a surviving element.
This is the well-formedness that the deletion operations maintain between
mutations and that `cleanUp` relies on. -/
def cleanUpClosed (m : Mesh VD HED ED FD) : Bool :=
  (m.vertices.all fun x =>
    match x.outgoing with
    | none => true
    | some o => decide (o < m.halfEdges.length) && !(delH m o)) &&
  ((m.halfEdges.all fun x =>
    match x.term with
    | none => true
    | some t =>
      (decide (t < m.vertices.length) && !(delV m t)) &&
      (match x.nxt with
       | none => false
       | some nn => decide (nn < m.halfEdges.length) && !(delH m nn)) &&
      (match x.prv with
       | none => false
       | some pp => decide (pp < m.halfEdges.length) && !(delH m pp)) &&
      (match x.face with
       | none => true
       | some ff => decide (ff < m.faces.length) && !(delF m ff))) &&
  (m.faces.all fun x =>
    match x.inner with
    | none => true
    | some i => decide (i < m.halfEdges.length) && !(delH m i)))

/-- C5.  On a reference-closed mesh with synchronised payload lengths,
`cleanUp` succeeds; afterwards no vertex, half-edge or face satisfies
`is_deleted`, every non-sentinel stored index is a valid index into the
compacted sequences, and each payload sequence has the length of its
element sequence (the edge payload that of the edge count). -/
theorem c5_cleanUp [Inhabited ED] (m : Mesh VD HED ED FD)
    (hlen1 : m.vData.length = m.vertices.length)
    (hlen2 : m.heData.length = m.halfEdges.length)
    (hlen3 : m.fData.length = m.faces.length)
    (hlen4 : m.eData.length = m.halfEdges.length / 2)
    (hcl : cleanUpClosed m = true) :
    ∃ m2, cleanUp m = some m2 ∧
      (∀ x ∈ m2.vertices, x.outgoing.isSome ∧
        ∀ o, x.outgoing = some o → o < m2.halfEdges.length) ∧
      (∀ x ∈ m2.halfEdges, x.term.isSome ∧ x.nxt.isSome ∧ x.prv.isSome ∧
        (∀ t, x.term = some t → t < m2.vertices.length) ∧
        (∀ nn, x.nxt = some nn → nn < m2.halfEdges.length) ∧
        (∀ pp, x.prv = some pp → pp < m2.halfEdges.length) ∧
        (∀ ff, x.face = some ff → ff < m2.faces.length)) ∧
      (∀ x ∈ m2.faces, x.inner.isSome ∧
        ∀ i, x.inner = some i → i < m2.halfEdges.length) ∧
      m2.vData.length = m2.vertices.length ∧
      m2.heData.length = m2.halfEdges.length ∧
      m2.fData.length = m2.faces.length ∧
      m2.eData.length = m2.halfEdges.length / 2 := by
  obtain ⟨hclv, hclh, hclf⟩ :
      (m.vertices.all fun x =>
        match x.outgoing with
        | none => true
        | some o => decide (o < m.halfEdges.length) && !(delH m o)) = true ∧
      (m.halfEdges.all fun x =>
        match x.term with
        | none => true
        | some t =>
          (decide (t < m.vertices.length) && !(delV m t)) &&
          (match x.nxt with
           | none => false
           | some nn => decide (nn < m.halfEdges.length) && !(delH m nn)) &&
          (match x.prv with
           | none => false
           | some pp => decide (pp < m.halfEdges.length) && !(delH m pp)) &&
          (match x.face with
           | none => true
           | some ff => decide (ff < m.faces.length) && !(delF m ff))) = true ∧
      (m.faces.all fun x =>
        match x.inner with
        | none => true
        | some i => decide (i < m.halfEdges.length) && !(delH m i)) = true := by
    unfold cleanUpClosed at hcl
    simp only [Bool.and_eq_true] at hcl
    exact ⟨hcl.1, hcl.2.1, hcl.2.2⟩
  -- abbreviations for the three compactions
  have hnvlen : (removeElems (delV m) m.vertices 0 0).2.length = m.vertices.length :=
    removeElems_map_length (delV m) m.vertices 0 0
  have hnhlen : (removeElems (delH m) m.halfEdges 0 0).2.length = m.halfEdges.length :=
    removeElems_map_length (delH m) m.halfEdges 0 0
  have hnflen : (removeElems (delF m) m.faces 0 0).2.length = m.faces.length :=
    removeElems_map_length (delF m) m.faces 0 0
  -- a surviving target index is remapped to an in-range new index
  have hmapH : ∀ o, o < m.halfEdges.length → delH m o = false →
      ∃ q, (removeElems (delH m) m.halfEdges 0 0).2.get? o = some (some q) ∧
        q < (removeElems (delH m) m.halfEdges 0 0).1.length := by
    intro o ho hdo
    obtain ⟨q, hq, _, hq2⟩ := removeElems_get (delH m) m.halfEdges 0 0 o ho
      (by simpa using hdo)
    exact ⟨q, hq, by simpa using hq2⟩
  have hmapV : ∀ t, t < m.vertices.length → delV m t = false →
      ∃ q, (removeElems (delV m) m.vertices 0 0).2.get? t = some (some q) ∧
        q < (removeElems (delV m) m.vertices 0 0).1.length := by
    intro t ht hdt
    obtain ⟨q, hq, _, hq2⟩ := removeElems_get (delV m) m.vertices 0 0 t ht
      (by simpa using hdt)
    exact ⟨q, hq, by simpa using hq2⟩
  have hmapF : ∀ f, f < m.faces.length → delF m f = false →
      ∃ q, (removeElems (delF m) m.faces 0 0).2.get? f = some (some q) ∧
        q < (removeElems (delF m) m.faces 0 0).1.length := by
    intro f hf hdf
    obtain ⟨q, hq, _, hq2⟩ := removeElems_get (delF m) m.faces 0 0 f hf
      (by simpa using hdf)
    exact ⟨q, hq, by simpa using hq2⟩
  -- characterisation of the surviving vertices
  have hsurvV : ∀ x ∈ (removeElems (delV m) m.vertices 0 0).1,
      ∃ o, x.outgoing = some o ∧ o < m.halfEdges.length ∧ delH m o = false := by
    intro x hx
    obtain ⟨j, hj, hdj⟩ := removeElems_mem (delV m) m.vertices 0 0 x hx
    rw [Nat.zero_add] at hdj
    have hmem : x ∈ m.vertices := List.get?_mem hj
    obtain ⟨o, ho⟩ : ∃ o, x.outgoing = some o := by
      unfold delV at hdj
      rw [hj] at hdj
      exact Option.isSome_iff_exists.mp (by simpa [Option.isSome_iff_ne_none, Option.isNone_iff_eq_none] using hdj)
    have hc := List.all_eq_true.mp hclv x hmem
    rw [ho] at hc
    simp only [Bool.and_eq_true, decide_eq_true_eq, Bool.not_eq_true'] at hc
    exact ⟨o, ho, hc.1, hc.2⟩
  -- characterisation of the surviving half-edges
  have hsurvH : ∀ x ∈ (removeElems (delH m) m.halfEdges 0 0).1,
      ∃ t nn pp, x.term = some t ∧ t < m.vertices.length ∧ delV m t = false ∧
        x.nxt = some nn ∧ nn < m.halfEdges.length ∧ delH m nn = false ∧
        x.prv = some pp ∧ pp < m.halfEdges.length ∧ delH m pp = false ∧
        (x.face = none ∨ ∃ ff, x.face = some ff ∧ ff < m.faces.length ∧
          delF m ff = false) := by
    intro x hx
    obtain ⟨j, hj, hdj⟩ := removeElems_mem (delH m) m.halfEdges 0 0 x hx
    rw [Nat.zero_add] at hdj
    have hmem : x ∈ m.halfEdges := List.get?_mem hj
    obtain ⟨t, ht⟩ : ∃ t, x.term = some t := by
      unfold delH at hdj
      rw [hj] at hdj
      exact Option.isSome_iff_exists.mp (by simpa [Option.isSome_iff_ne_none, Option.isNone_iff_eq_none] using hdj)
    have hc := List.all_eq_true.mp hclh x hmem
    rw [ht] at hc
    simp only [Bool.and_eq_true, decide_eq_true_eq, Bool.not_eq_true'] at hc
    obtain ⟨⟨⟨⟨ht1, ht2⟩, hcn⟩, hcp⟩, hcf⟩ := hc
    obtain ⟨nn, hnn⟩ : ∃ nn, x.nxt = some nn := by
      rcases h2 : x.nxt with _ | nn
      · rw [h2] at hcn; exact absurd hcn (by simp)
      · exact ⟨nn, rfl⟩
    rw [hnn] at hcn
    simp only [Bool.and_eq_true, decide_eq_true_eq, Bool.not_eq_true'] at hcn
    obtain ⟨pp, hpp⟩ : ∃ pp, x.prv = some pp := by
      rcases h2 : x.prv with _ | pp
      · rw [h2] at hcp; exact absurd hcp (by simp)
      · exact ⟨pp, rfl⟩
    rw [hpp] at hcp
    simp only [Bool.and_eq_true, decide_eq_true_eq, Bool.not_eq_true'] at hcp
    refine ⟨t, nn, pp, ht, ht1, ht2, hnn, hcn.1, hcn.2, hpp, hcp.1, hcp.2, ?_⟩
    rcases h2 : x.face with _ | ff
    · exact Or.inl rfl
    · rw [h2] at hcf
      simp only [Bool.and_eq_true, decide_eq_true_eq, Bool.not_eq_true'] at hcf
      exact Or.inr ⟨ff, rfl, hcf.1, hcf.2⟩
  -- characterisation of the surviving faces
  have hsurvF : ∀ x ∈ (removeElems (delF m) m.faces 0 0).1,
      ∃ i, x.inner = some i ∧ i < m.halfEdges.length ∧ delH m i = false := by
    intro x hx
    obtain ⟨j, hj, hdj⟩ := removeElems_mem (delF m) m.faces 0 0 x hx
    rw [Nat.zero_add] at hdj
    have hmem : x ∈ m.faces := List.get?_mem hj
    obtain ⟨i, hi⟩ : ∃ i, x.inner = some i := by
      unfold delF at hdj
      rw [hj] at hdj
      exact Option.isSome_iff_exists.mp (by simpa [Option.isSome_iff_ne_none, Option.isNone_iff_eq_none] using hdj)
    have hc := List.all_eq_true.mp hclf x hmem
    rw [hi] at hc
    simp only [Bool.and_eq_true, decide_eq_true_eq, Bool.not_eq_true'] at hc
    exact ⟨i, hi, hc.1, hc.2⟩
  -- the three rewrite passes succeed
  obtain ⟨v2, hv2⟩ : ∃ v2, mapO (rewriteVertex (removeElems (delH m) m.halfEdges 0 0).2)
      (removeElems (delV m) m.vertices 0 0).1 = some v2 := by
    apply mapO_total
    intro x hx
    obtain ⟨o, ho, ho1, ho2⟩ := hsurvV x hx
    obtain ⟨q, hq, _⟩ := hmapH o ho1 ho2
    simp only [rewriteVertex, mapOpt, ho, hq]
    rfl
  obtain ⟨h2, hh2⟩ : ∃ h2, mapO (rewriteHalfEdge
      (removeElems (delV m) m.vertices 0 0).2
      (removeElems (delH m) m.halfEdges 0 0).2
      (removeElems (delF m) m.faces 0 0).2)
      (removeElems (delH m) m.halfEdges 0 0).1 = some h2 := by
    apply mapO_total
    intro x hx
    obtain ⟨t, nn, pp, ht, ht1, ht2, hnn, hnn1, hnn2, hpp, hpp1, hpp2, hface⟩ := hsurvH x hx
    obtain ⟨qt, hqt, _⟩ := hmapV t ht1 ht2
    obtain ⟨qn, hqn, _⟩ := hmapH nn hnn1 hnn2
    obtain ⟨qp, hqp, _⟩ := hmapH pp hpp1 hpp2
    rcases hface with hf0 | ⟨ff, hff, hff1, hff2⟩
    · simp only [rewriteHalfEdge, mapReq, mapOpt, ht, hnn, hpp, hf0, hqt, hqn, hqp]
      rfl
    · obtain ⟨qf, hqf, _⟩ := hmapF ff hff1 hff2
      simp only [rewriteHalfEdge, mapReq, mapOpt, ht, hnn, hpp, hff, hqt, hqn, hqp, hqf]
      rfl
  obtain ⟨f2, hf2⟩ : ∃ f2, mapO (rewriteFace (removeElems (delH m) m.halfEdges 0 0).2)
      (removeElems (delF m) m.faces 0 0).1 = some f2 := by
    apply mapO_total
    intro x hx
    obtain ⟨i, hi, hi1, hi2⟩ := hsurvF x hx
    obtain ⟨q, hq, _⟩ := hmapH i hi1 hi2
    simp only [rewriteFace, mapReq, hi, hq]
    rfl
  -- lengths of the compacted sequences
  have hv2len : v2.length = (removeElems (delV m) m.vertices 0 0).1.length :=
    mapO_length _ _ _ hv2
  have hh2len : h2.length = (removeElems (delH m) m.halfEdges 0 0).1.length :=
    mapO_length _ _ _ hh2
  have hf2len : f2.length = (removeElems (delF m) m.faces 0 0).1.length :=
    mapO_length _ _ _ hf2
  refine ⟨{ manifold := m.manifold, vertices := v2, halfEdges := h2, faces := f2,
            vData := removeData (delV m) m.vData 0,
            heData := removeData (delH m) m.heData 0,
            fData := removeData (delF m) m.fData 0,
            eData := listResize (removeEdgeData (removeElems (delH m) m.halfEdges 0 0).2 m.eData)
              ((removeElems (delH m) m.halfEdges 0 0).1.length / 2) default }, ?_, ?_, ?_, ?_, ?_, ?_, ?_, ?_⟩
  · unfold cleanUp
    rw [if_neg (by simp [hlen1]), if_neg (by simp [hlen2]), if_neg (by simp [hlen3]),
      if_neg (by simp [hlen4])]
    simp only [hv2, hh2, hf2]
  · -- vertices of the result
    intro y hy
    obtain ⟨x, hx, hxy⟩ := mapO_mem_rev _ _ _ hv2 y hy
    obtain ⟨o, ho, ho1, ho2⟩ := hsurvV x hx
    obtain ⟨q, hq, hq2⟩ := hmapH o ho1 ho2
    have hyq : y = ⟨some q⟩ := by
      simp only [rewriteVertex, mapOpt, ho, hq] at hxy
      exact (Option.some.inj hxy).symm
    subst hyq
    refine ⟨by simp, ?_⟩
    intro o2 ho2'
    obtain rfl := Option.some.inj ho2'
    simp only []
    omega
  · -- half-edges of the result
    intro y hy
    obtain ⟨x, hx, hxy⟩ := mapO_mem_rev _ _ _ hh2 y hy
    obtain ⟨t, nn, pp, ht, ht1, ht2, hnn, hnn1, hnn2, hpp, hpp1, hpp2, hface⟩ := hsurvH x hx
    obtain ⟨qt, hqt, hqt2⟩ := hmapV t ht1 ht2
    obtain ⟨qn, hqn, hqn2⟩ := hmapH nn hnn1 hnn2
    obtain ⟨qp, hqp, hqp2⟩ := hmapH pp hpp1 hpp2
    rcases hface with hf0 | ⟨ff, hff, hff1, hff2⟩
    · have hyq : y = ⟨some qt, some qn, some qp, none⟩ := by
        simp only [rewriteHalfEdge, mapReq, mapOpt, ht, hnn, hpp, hf0, hqt, hqn, hqp] at hxy
        exact (Option.some.inj hxy).symm
      subst hyq
      refine ⟨by simp, by simp, by simp, ?_, ?_, ?_, ?_⟩
      · intro t2 ht2'
        obtain rfl := Option.some.inj ht2'
        simp only []
        omega
      · intro n2 hn2
        obtain rfl := Option.some.inj hn2
        simp only []
        omega
      · intro p2 hp2
        obtain rfl := Option.some.inj hp2
        simp only []
        omega
      · intro f2x hf2x
        exact absurd hf2x (by simp)
    · obtain ⟨qf, hqf, hqf2⟩ := hmapF ff hff1 hff2
      have hyq : y = ⟨some qt, some qn, some qp, some qf⟩ := by
        simp only [rewriteHalfEdge, mapReq, mapOpt, ht, hnn, hpp, hff, hqt, hqn, hqp, hqf] at hxy
        exact (Option.some.inj hxy).symm
      subst hyq
      refine ⟨by simp, by simp, by simp, ?_, ?_, ?_, ?_⟩
      · intro t2 ht2'
        obtain rfl := Option.some.inj ht2'
        simp only []
        omega
      · intro n2 hn2
        obtain rfl := Option.some.inj hn2
        simp only []
        omega
      · intro p2 hp2
        obtain rfl := Option.some.inj hp2
        simp only []
        omega
      · intro f2x hf2x
        obtain rfl := Option.some.inj hf2x
        simp only []
        omega
  · -- faces of the result
    intro y hy
    obtain ⟨x, hx, hxy⟩ := mapO_mem_rev _ _ _ hf2 y hy
    obtain ⟨i, hi, hi1, hi2⟩ := hsurvF x hx
    obtain ⟨q, hq, hq2⟩ := hmapH i hi1 hi2
    have hyq : y = ⟨some q⟩ := by
      simp only [rewriteFace, mapReq, hi, hq] at hxy
      exact (Option.some.inj hxy).symm
    subst hyq
    refine ⟨by simp, ?_⟩
    intro i2 hi2'
    obtain rfl := Option.some.inj hi2'
    simp only []
    omega
  · simp only []
    rw [removeData_length (delV m) m.vertices m.vData 0 0 hlen1, hv2len]
  · simp only []
    rw [removeData_length (delH m) m.halfEdges m.heData 0 0 hlen2, hh2len]
  · simp only []
    rw [removeData_length (delF m) m.faces m.fData 0 0 hlen3, hf2len]
  · simp only []
    rw [listResize_length, hh2len]

/-- Witness for C5: the two-triangle mesh after `deleteFace 0` has
synchronised payloads and is reference-closed, and `cleanUp` succeeds
on it. -/
theorem c5_witness :
    (twoDel.vData.length = twoDel.vertices.length ∧
     twoDel.heData.length = twoDel.halfEdges.length ∧
     twoDel.fData.length = twoDel.faces.length ∧
     twoDel.eData.length = twoDel.halfEdges.length / 2 ∧
     cleanUpClosed twoDel = true) ∧
    (cleanUp twoDel).isSome = true := by
  refine ⟨⟨by decide, by decide, by decide, by decide, by decide⟩, ?_⟩
  obtain ⟨m2, hm2, -⟩ :=
    c5_cleanUp twoDel (by decide) (by decide) (by decide) (by decide) (by decide)
  rw [hm2]
  rfl

end PCLMesh
